import Mathlib

/-!
Verification development for the H-mesh generation core of `turbogen`
(`src/turbogen/hmesh.py`).

Embedding conventions:
* numpy 1-D float arrays are `List ℝ`; higher-dimensional arrays are
  curried functions `ℕ → ℕ → ℝ` (etc.) together with explicit shape data;
  machine floating point is modelled by real arithmetic.
* `np.linspace`, `np.diff`, `.max()`, `.min()`, `np.ptp`, `np.interp` and
  Python's `int()` truncation are embedded below with their numpy/Python
  semantics.
* In-place slice assignments on arrays are modelled by successive total
  functions, each reading the previous stage (numpy evaluates the whole
  right-hand side before writing).
-/

open Real List

noncomputable section

/-- numpy `np.linspace a b n` (`n` samples; for `n = 1` numpy returns `[a]`,
which the formula below also yields since its numerator vanishes at `i = 0`). -/
def linspace (a b : ℝ) (n : ℕ) : List ℝ :=
  (List.range n).map fun i : ℕ => a + (b - a) * (i : ℝ) / ((n - 1 : ℕ) : ℝ)

/-- numpy `np.diff` of a 1-D array. -/
def diff1 (l : List ℝ) : List ℝ :=
  List.zipWith (fun a b => b - a) l l.tail

/-- numpy `.max()` of a (nonempty) 1-D array. -/
def npmax (l : List ℝ) : ℝ := l.foldr max l.headI

/-- numpy `.min()` of a (nonempty) 1-D array. -/
def npmin (l : List ℝ) : ℝ := l.foldr min l.headI

/-- numpy `np.ptp` (peak to peak, max minus min). -/
def np_ptp (l : List ℝ) : ℝ := npmax l - npmin l

/-- Python `int()` applied to a float: truncation towards zero. -/
def pyint (y : ℝ) : ℤ := if 0 ≤ y then ⌊y⌋ else ⌈y⌉

/-- numpy `np.interp t xp fp`: piecewise-linear interpolation with clamping
outside the range of `xp`. -/
def np_interp (t : ℝ) : List ℝ → List ℝ → ℝ
  | x1 :: x2 :: xr, y1 :: y2 :: yr =>
    if t < x1 then y1
    else if t ≤ x2 then y1 + (y2 - y1) * (t - x1) / (x2 - x1)
    else np_interp t (x2 :: xr) (y2 :: yr)
  | [_], [y1] => y1
  | _, _ => 0

/-- Number of entries of `l` that are exactly equal to `v`
(the float-equality lookups in `streamwise_grid` rely on this count). -/
def countVal (v : ℝ) : List ℝ → ℕ
  | [] => 0
  | a :: t => (if a = v then 1 else 0) + countVal v t

lemma countVal_nil (v : ℝ) : countVal v [] = 0 := rfl

lemma countVal_cons (v a : ℝ) (t : List ℝ) :
    countVal v (a :: t) = (if a = v then 1 else 0) + countVal v t := rfl

lemma countVal_append (v : ℝ) (l₁ l₂ : List ℝ) :
    countVal v (l₁ ++ l₂) = countVal v l₁ + countVal v l₂ := by
  induction l₁ with
  | nil => simp [countVal]
  | cons a t ih => simp [countVal, ih]; ring

lemma countVal_eq_zero {v : ℝ} {l : List ℝ} (h : ∀ u ∈ l, u ≠ v) :
    countVal v l = 0 := by
  induction l with
  | nil => rfl
  | cons a t ih =>
    have ha : a ≠ v := h a (by simp)
    simp [countVal, ha, ih fun u hu => h u (by simp [hu])]

lemma mem_of_countVal_ne_zero {v : ℝ} {l : List ℝ} (h : countVal v l ≠ 0) :
    v ∈ l := by
  induction l with
  | nil => simp [countVal] at h
  | cons a t ih =>
    by_cases hav : a = v
    · simp [hav]
    · simp only [countVal, hav, if_false, Nat.zero_add] at h
      exact List.mem_cons_of_mem _ (ih h)

lemma countVal_map_of_iff {v : ℝ} {f : ℝ → ℝ} {l : List ℝ}
    (H : ∀ u ∈ l, (f u = v ↔ u = v)) :
    countVal v (l.map f) = countVal v l := by
  induction l with
  | nil => rfl
  | cons a t ih =>
    have ha := H a (by simp)
    simp only [List.map_cons, countVal]
    rw [ih fun u hu => H u (by simp [hu])]
    congr 1
    by_cases h : a = v
    · rw [if_pos (ha.mpr h), if_pos h]
    · rw [if_neg (fun hh => h (ha.mp hh)), if_neg h]

lemma countVal_map_nodup {v : ℝ} {f : ℕ → ℝ} {l : List ℕ}
    (hnd : l.Nodup) (i0 : ℕ) (hi0 : i0 ∈ l)
    (hf : ∀ i ∈ l, (f i = v ↔ i = i0)) :
    countVal v (l.map f) = 1 := by
  induction l with
  | nil => simp at hi0
  | cons a t ih =>
    simp only [List.map_cons, countVal]
    rcases List.mem_cons.mp hi0 with hai | hi0t
    · have hfa : f a = v := (hf a (by simp)).mpr hai.symm
      have ht : countVal v (t.map f) = 0 := by
        apply countVal_eq_zero
        intro u hu
        rcases List.mem_map.mp hu with ⟨i, hit, rfl⟩
        intro hiv
        have hia : i = a := ((hf i (by simp [hit])).mp hiv).trans hai
        exact (List.nodup_cons.mp hnd).1 (hia ▸ hit)
      simp [hfa, ht]
    · have ha : f a ≠ v := by
        intro hav
        have hai0 : a = i0 := (hf a (by simp)).mp hav
        exact (List.nodup_cons.mp hnd).1 (hai0 ▸ hi0t)
      have hind := ih (List.nodup_cons.mp hnd).2 hi0t
        (fun i hit => hf i (by simp [hit]))
      simp [ha, hind]

lemma countVal_filter {v : ℝ} {p : ℝ → Bool} {l : List ℝ} (hp : p v = true) :
    countVal v (l.filter p) = countVal v l := by
  induction l with
  | nil => rfl
  | cons a t ih =>
    by_cases hav : a = v
    · subst hav
      simp [List.filter_cons, hp, countVal, ih]
    · by_cases hpa : p a = true
      · simp [List.filter_cons, hpa, countVal, hav, ih]
      · simp only [List.filter_cons, Bool.not_eq_true] at *
        simp [hpa, countVal, hav, ih]

lemma le_foldr_max {a c : ℝ} {l : List ℝ} (h : a ∈ l) : a ≤ l.foldr max c := by
  induction l with
  | nil => simp at h
  | cons b t ih =>
    rcases List.mem_cons.mp h with rfl | hat
    · exact le_max_left _ _
    · exact le_trans (ih hat) (le_max_right _ _)

lemma init_le_foldr_max (c : ℝ) (l : List ℝ) : c ≤ l.foldr max c := by
  induction l with
  | nil => simp
  | cons b t ih => exact le_trans ih (le_max_right _ _)

lemma foldr_max_le {c M : ℝ} {l : List ℝ} (hc : c ≤ M)
    (h : ∀ a ∈ l, a ≤ M) : l.foldr max c ≤ M := by
  induction l with
  | nil => simpa
  | cons b t ih =>
    exact max_le (h b (by simp)) (ih fun a ha => h a (by simp [ha]))

lemma foldr_min_le {a c : ℝ} {l : List ℝ} (h : a ∈ l) : l.foldr min c ≤ a := by
  induction l with
  | nil => simp at h
  | cons b t ih =>
    rcases List.mem_cons.mp h with rfl | hat
    · exact min_le_left _ _
    · exact le_trans (min_le_right _ _) (ih hat)

lemma le_foldr_min {c M : ℝ} {l : List ℝ} (hc : M ≤ c)
    (h : ∀ a ∈ l, M ≤ a) : M ≤ l.foldr min c := by
  induction l with
  | nil => simpa
  | cons b t ih =>
    exact le_min (h b (by simp)) (ih fun a ha => h a (by simp [ha]))

lemma headI_map {f : ℝ → ℝ} {l : List ℝ} (h : l ≠ []) :
    (l.map f).headI = f l.headI := by
  cases l with
  | nil => exact absurd rfl h
  | cons a t => simp

lemma headI_mem {l : List ℝ} (h : l ≠ []) : l.headI ∈ l := by
  cases l with
  | nil => exact absurd rfl h
  | cons a t => simp

lemma getLastD_mem {l : List ℝ} (h : l ≠ []) : l.getLastD 0 ∈ l := by
  rw [List.getLastD_eq_getLast?, List.getLast?_eq_getLast l h]
  exact List.getLast_mem h

lemma getLast?_cons_of_ne_nil {a : ℝ} {l : List ℝ} (h : l ≠ []) :
    (a :: l).getLast? = l.getLast? := by
  cases l with
  | nil => exact absurd rfl h
  | cons b t => simp [List.getLast?_cons_cons]

lemma getLastD_append_of_ne_nil {l₁ l₂ : List ℝ} (h : l₂ ≠ []) :
    (l₁ ++ l₂).getLastD 0 = l₂.getLastD 0 := by
  rcases l₂.eq_nil_or_concat' with rfl | ⟨t, a, rfl⟩
  · exact absurd rfl h
  · rw [← List.append_assoc]
    simp [List.getLastD_eq_getLast?, List.getLast?_concat]

lemma sorted_headI_le {l : List ℝ} (hs : List.Chain' (· < ·) l)
    {v : ℝ} (hv : v ∈ l) : l.headI ≤ v := by
  rw [List.chain'_iff_pairwise] at hs
  cases l with
  | nil => simp at hv
  | cons a t =>
    rcases List.mem_cons.mp hv with rfl | hvt
    · simp
    · exact le_of_lt ((List.pairwise_cons.mp hs).1 v hvt)

lemma sorted_le_getLastD {l : List ℝ} (hs : List.Chain' (· < ·) l)
    {v : ℝ} (hv : v ∈ l) : v ≤ l.getLastD 0 := by
  have hne : l ≠ [] := List.ne_nil_of_mem hv
  rcases l.eq_nil_or_concat' with rfl | ⟨t, a, rfl⟩
  · exact absurd rfl hne
  rw [List.chain'_iff_pairwise, List.pairwise_append] at hs
  rw [List.getLastD_eq_getLast?, List.getLast?_concat]
  rcases List.mem_append.mp hv with hvt | hva
  · exact le_of_lt (hs.2.2 v hvt a (by simp))
  · simp at hva
    simp [hva]

lemma sorted_dropLast_lt_getLastD {l : List ℝ} (hs : List.Chain' (· < ·) l)
    {v : ℝ} (hv : v ∈ l.dropLast) : v < l.getLastD 0 := by
  rcases l.eq_nil_or_concat' with rfl | ⟨t, a, rfl⟩
  · simp at hv
  rw [List.chain'_iff_pairwise, List.pairwise_append] at hs
  rw [List.getLastD_eq_getLast?, List.getLast?_concat]
  rw [List.dropLast_concat] at hv
  exact hs.2.2 v hv a (by simp)

lemma chain'_lt_map {f : ℝ → ℝ} {l : List ℝ}
    (hf : ∀ a b, a < b → f a < f b) (hl : List.Chain' (· < ·) l) :
    List.Chain' (· < ·) (l.map f) := by
  rw [List.chain'_map]
  exact hl.imp hf

lemma getLast?_of_filter {p : ℝ → Bool} {l : List ℝ} {a : ℝ}
    (hp : p a = true) (hl : l.getLast? = some a) :
    (l.filter p).getLast? = some a := by
  induction l with
  | nil => simp at hl
  | cons b t ih =>
    cases t with
    | nil =>
      simp only [List.getLast?_singleton, Option.some.injEq] at hl
      subst hl
      simp [List.filter_cons, hp]
    | cons c t' =>
      rw [getLast?_cons_of_ne_nil (by simp)] at hl
      have hft := ih hl
      have hne : (c :: t').filter p ≠ [] := by
        intro h
        rw [h] at hft
        simp at hft
      rw [List.filter_cons]
      by_cases hpb : p b = true
      · simp only [hpb, if_true]
        rw [getLast?_cons_of_ne_nil hne]
        exact hft
      · simp only [hpb]
        simp only [Bool.false_eq_true, if_false]
        exact hft

lemma filter_headI {p : ℝ → Bool} {l : List ℝ}
    (hne : l ≠ []) (hp : p l.headI = true) :
    (l.filter p).headI = l.headI := by
  cases l with
  | nil => exact absurd rfl hne
  | cons a t =>
    rw [List.headI_cons] at hp
    rw [List.filter_cons, if_pos hp, List.headI_cons, List.headI_cons]

lemma length_ge_two_of_two_mem {l : List ℝ} {a b : ℝ} (hab : a ≠ b)
    (ha : a ∈ l) (hb : b ∈ l) : 2 ≤ l.length := by
  match l with
  | [] => simp at ha
  | [c] =>
    simp at ha hb
    exact absurd (ha.trans hb.symm) hab
  | c :: d :: t =>
    simp only [List.length_cons]
    omega

lemma headI_dropLast {l : List ℝ} (h : 2 ≤ l.length) :
    l.dropLast.headI = l.headI := by
  match l with
  | [] => simp at h
  | [a] => simp at h
  | a :: b :: t => simp [List.dropLast_cons₂]

lemma get?_findIdx {p : ℝ → Bool} {l : List ℝ}
    (h : ∃ a ∈ l, p a = true) :
    ∃ a, l[l.findIdx p]? = some a ∧ p a = true := by
  induction l with
  | nil => simp at h
  | cons b t ih =>
    by_cases hpb : p b = true
    · exact ⟨b, by simp [List.findIdx_cons, hpb], hpb⟩
    · obtain ⟨a, ha, hpa⟩ := h
      rcases List.mem_cons.mp ha with rfl | hat
      · exact absurd hpa hpb
      · obtain ⟨c, hc, hpc⟩ := ih ⟨a, hat, hpa⟩
        refine ⟨c, ?_, hpc⟩
        simp only [List.findIdx_cons, hpb, Bool.false_eq_true, cond_false]
        simpa using hc

lemma linspace_length (a b : ℝ) (n : ℕ) : (linspace a b n).length = n := by
  simp [linspace]

lemma linspace_getD {a b : ℝ} {n k : ℕ} (hk : k < n) :
    (linspace a b n).getD k 0 = a + (b - a) * k / ((n - 1 : ℕ) : ℝ) := by
  rw [linspace, List.getD_eq_getElem?_getD]
  rw [List.getElem?_map]
  rw [List.getElem?_range hk]
  simp

lemma linspace_headI {a b : ℝ} {n : ℕ} (hn : 0 < n) :
    (linspace a b n).headI = a := by
  obtain ⟨m, rfl⟩ := Nat.exists_eq_succ_of_ne_zero hn.ne'
  have h0 : (0 : ℕ) :: (List.range' 1 m) = List.range (m + 1) := by
    rw [List.range_eq_range']
    rfl
  rw [linspace, ← h0]
  simp

lemma linspace_ne_nil {a b : ℝ} {n : ℕ} (hn : 0 < n) : linspace a b n ≠ [] := by
  intro h
  have := linspace_length a b n
  rw [h] at this
  simp at this
  omega

lemma linspace_getLastD_of_two_le {a b : ℝ} {n : ℕ} (hn : 2 ≤ n) :
    (linspace a b n).getLastD 0 = b := by
  obtain ⟨m, rfl⟩ := Nat.exists_eq_succ_of_ne_zero (by omega : n ≠ 0)
  rw [linspace, List.getLastD_eq_getLast?, List.range_eq_range',
    List.range'_1_concat, List.map_append]
  simp only [List.map_cons, List.map_nil, List.getLast?_concat, Option.getD_some]
  have hm : ((m + 1 - 1 : ℕ) : ℝ) = (m : ℝ) := by
    push_cast
    ring
  rw [hm]
  have hm0 : (m : ℝ) ≠ 0 := by
    have : 1 ≤ m := by omega
    exact_mod_cast Nat.one_le_iff_ne_zero.mp this
  field_simp

lemma linspace_getLastD_one (a b : ℝ) : (linspace a b 1).getLastD 0 = a := by
  have : linspace a b 1 = [a + (b - a) * (0 : ℕ) / ((0 : ℕ) : ℝ)] := by
    rw [linspace]
    rfl
  rw [this]
  norm_num

lemma linspace_mem_bounds {a b : ℝ} (hab : a ≤ b) {n : ℕ} {v : ℝ}
    (hv : v ∈ linspace a b n) : a ≤ v ∧ v ≤ b := by
  rw [linspace] at hv
  rcases List.mem_map.mp hv with ⟨i, hi, rfl⟩
  rw [List.mem_range] at hi
  rcases Nat.lt_or_ge n 2 with hn | hn
  · have hi0 : i = 0 := by omega
    subst hi0
    norm_num
    exact hab
  · have hden : (0 : ℝ) < ((n - 1 : ℕ) : ℝ) := by
      have : 1 ≤ n - 1 := by omega
      exact_mod_cast Nat.lt_of_lt_of_le Nat.zero_lt_one this
    constructor
    · have : 0 ≤ (b - a) * i / ((n - 1 : ℕ) : ℝ) := by
        apply div_nonneg _ hden.le
        exact mul_nonneg (by linarith) (Nat.cast_nonneg i)
      linarith
    · have hfrac : (i : ℝ) / ((n - 1 : ℕ) : ℝ) ≤ 1 := by
        rw [div_le_one hden]
        exact_mod_cast Nat.le_of_lt_succ (by omega : i < (n - 1) + 1)
      have hnn : 0 ≤ b - a := by linarith
      have : (b - a) * i / ((n - 1 : ℕ) : ℝ) ≤ (b - a) * 1 := by
        rw [mul_div_assoc]
        exact mul_le_mul_of_nonneg_left hfrac hnn
      linarith

lemma linspace_chain' {a b : ℝ} (hab : a < b) (n : ℕ) :
    List.Chain' (· < ·) (linspace a b n) := by
  rcases Nat.lt_or_ge n 2 with hn | hn
  · interval_cases n
    · simp [linspace]
    · simp [linspace]
  · rw [linspace, List.chain'_map]
    have hden : (0 : ℝ) < ((n - 1 : ℕ) : ℝ) := by
      have : 1 ≤ n - 1 := by omega
      exact_mod_cast Nat.lt_of_lt_of_le Nat.zero_lt_one this
    have hstep : ∀ i j : ℕ, i < j →
        a + (b - a) * i / ((n - 1 : ℕ) : ℝ) < a + (b - a) * j / ((n - 1 : ℕ) : ℝ) := by
      intro i j hij
      have hcast : (i : ℝ) < (j : ℝ) := by exact_mod_cast hij
      have : (b - a) * i < (b - a) * j :=
        mul_lt_mul_of_pos_left hcast (by linarith)
      have := div_lt_div_of_pos_right this hden
      linarith
    have hpw : List.Pairwise (· < ·) (List.range n) := List.pairwise_lt_range n
    exact (hpw.imp fun hij => hstep _ _ hij).chain'

lemma pyint_pos_iff {y : ℝ} : 0 < pyint y ↔ 1 ≤ y := by
  rw [pyint]
  by_cases h : 0 ≤ y
  · rw [if_pos h]
    constructor
    · intro h1
      have : (1 : ℤ) ≤ ⌊y⌋ := h1
      exact_mod_cast (Int.le_floor.mp this)
    · intro h1
      exact Int.lt_of_lt_of_le Int.zero_lt_one (Int.le_floor.mpr (by exact_mod_cast h1))
  · rw [if_neg h]
    constructor
    · intro h1
      have hy0 : (0 : ℝ) < y := by
        by_contra h2
        have : ⌈y⌉ ≤ (0 : ℤ) := Int.ceil_le.mpr (by push_cast; linarith)
        omega
      linarith [hy0]
    · intro h1
      linarith [h1]

lemma pyint_zero : pyint 0 = 0 := by
  simp [pyint]

lemma chain'_lt_map_range' {h : ℕ → ℝ} {s n : ℕ}
    (H : ∀ i, s ≤ i → i + 1 < s + n → h i < h (i + 1)) :
    List.Chain' (· < ·) ((List.range' s n).map h) := by
  induction n generalizing s with
  | zero => simp
  | succ m ih =>
    rw [List.range'_succ, List.map_cons]
    rw [List.chain'_cons']
    constructor
    · intro y hy
      cases m with
      | zero => simp at hy
      | succ m' =>
        rw [List.range'_succ, List.map_cons] at hy
        simp only [List.head?_cons, Option.mem_def, Option.some.injEq] at hy
        subst hy
        exact H s le_rfl (by omega)
    · exact ih fun i his hi1 => H i (by omega) (by omega)

lemma getLast?_map_range' (h : ℕ → ℝ) (s n : ℕ) (hn : 0 < n) :
    ((List.range' s n).map h).getLast? = some (h (s + n - 1)) := by
  obtain ⟨m, rfl⟩ := Nat.exists_eq_succ_of_ne_zero hn.ne'
  rw [List.range'_1_concat, List.map_append]
  simp only [List.map_cons, List.map_nil, List.getLast?_concat]
  have harith : s + m.succ - 1 = s + m := by omega
  rw [harith]

lemma head?_map_range' (h : ℕ → ℝ) (s n : ℕ) (hn : 0 < n) :
    ((List.range' s n).map h).head? = some (h s) := by
  obtain ⟨m, rfl⟩ := Nat.exists_eq_succ_of_ne_zero hn.ne'
  rw [List.range'_succ, List.map_cons]
  simp

/-- Number of points across the blade chord (module-level constant `nxb`). -/
def nxb : ℕ := 97

/-- Number of spanwise points (module-level constant `nr`). -/
def nr : ℕ := 97

/-- `_cluster` from `hmesh.py`: cosinusoidal clustering function,
`0.5 * (1 - np.cos(np.pi * np.linspace(0.0, 1, npts)))`. -/
def _cluster (npts : ℕ) : List ℝ :=
  (linspace 0 1 npts).map fun t => 0.5 * (1 - Real.cos (Real.pi * t))

/-- Closed form of the `i`-th entry of `_cluster npts`. -/
def clusterF (npts i : ℕ) : ℝ :=
  0.5 * (1 - Real.cos (Real.pi * (i : ℝ) / ((npts - 1 : ℕ) : ℝ)))

lemma _cluster_eq_map (npts : ℕ) :
    _cluster npts = (List.range npts).map (clusterF npts) := by
  rw [_cluster, linspace, List.map_map]
  apply List.map_congr_left
  intro i _
  simp only [Function.comp]
  rw [clusterF]
  norm_num
  rw [mul_div_assoc]

lemma _cluster_getD {n i : ℕ} (hi : i < n) :
    (_cluster n).getD i 0 = clusterF n i := by
  rw [_cluster_eq_map, List.getD_eq_getElem?_getD, List.getElem?_map,
    List.getElem?_range hi]
  simp

lemma _cluster_length (n : ℕ) : (_cluster n).length = n := by
  rw [_cluster_eq_map]
  simp

lemma clusterF_zero (n : ℕ) : clusterF n 0 = 0 := by
  rw [clusterF]
  norm_num

lemma clusterF_last {n : ℕ} (hn : 2 ≤ n) : clusterF n (n - 1) = 1 := by
  rw [clusterF]
  have hne : ((n - 1 : ℕ) : ℝ) ≠ 0 := by
    have : 1 ≤ n - 1 := by omega
    have h2 : (1 : ℝ) ≤ ((n - 1 : ℕ) : ℝ) := by exact_mod_cast this
    linarith
  rw [mul_div_assoc, div_self hne, mul_one, Real.cos_pi]
  norm_num

lemma clusterF_mono {n : ℕ} (hn : 2 ≤ n) {i j : ℕ} (hij : i < j)
    (hj : j ≤ n - 1) : clusterF n i < clusterF n j := by
  have hd : (0 : ℝ) < ((n - 1 : ℕ) : ℝ) := by
    have : 1 ≤ n - 1 := by omega
    have h2 : (1 : ℝ) ≤ ((n - 1 : ℕ) : ℝ) := by exact_mod_cast this
    linarith
  have hcos : Real.cos (Real.pi * (j : ℝ) / ((n - 1 : ℕ) : ℝ)) <
      Real.cos (Real.pi * (i : ℝ) / ((n - 1 : ℕ) : ℝ)) := by
    apply Real.cos_lt_cos_of_nonneg_of_le_pi
    · apply div_nonneg _ hd.le
      exact mul_nonneg Real.pi_pos.le (Nat.cast_nonneg i)
    · rw [div_le_iff hd]
      have hjr : (j : ℝ) ≤ ((n - 1 : ℕ) : ℝ) := by exact_mod_cast hj
      calc Real.pi * (j : ℝ) ≤ Real.pi * ((n - 1 : ℕ) : ℝ) :=
            mul_le_mul_of_nonneg_left hjr Real.pi_pos.le
        _ = Real.pi * ((n - 1 : ℕ) : ℝ) := rfl
    · apply div_lt_div_of_pos_right _ hd
      have hij' : (i : ℝ) < (j : ℝ) := by exact_mod_cast hij
      exact mul_lt_mul_of_pos_left hij' Real.pi_pos
  rw [clusterF, clusterF]
  linarith

lemma clusterF_nonneg (n i : ℕ) : 0 ≤ clusterF n i := by
  rw [clusterF]
  have := Real.cos_le_one (Real.pi * (i : ℝ) / ((n - 1 : ℕ) : ℝ))
  linarith

lemma clusterF_le_one (n i : ℕ) : clusterF n i ≤ 1 := by
  rw [clusterF]
  have := Real.neg_one_le_cos (Real.pi * (i : ℝ) / ((n - 1 : ℕ) : ℝ))
  linarith

lemma clusterF_symm {n : ℕ} (hn : 2 ≤ n) {i : ℕ} (hi : i ≤ n - 1) :
    clusterF n i + clusterF n (n - 1 - i) = 1 := by
  have hd : (0 : ℝ) < ((n - 1 : ℕ) : ℝ) := by
    have : 1 ≤ n - 1 := by omega
    have h2 : (1 : ℝ) ≤ ((n - 1 : ℕ) : ℝ) := by exact_mod_cast this
    linarith
  have hcast : ((n - 1 - i : ℕ) : ℝ) = ((n - 1 : ℕ) : ℝ) - (i : ℝ) := by
    have := Nat.cast_sub hi (R := ℝ)
    exact_mod_cast this
  have harg : Real.pi * ((n - 1 - i : ℕ) : ℝ) / ((n - 1 : ℕ) : ℝ) =
      Real.pi - Real.pi * (i : ℝ) / ((n - 1 : ℕ) : ℝ) := by
    rw [hcast, mul_sub, sub_div, mul_div_assoc Real.pi ((n - 1 : ℕ) : ℝ),
      div_self hd.ne', mul_one]
  rw [clusterF, clusterF, harg, Real.cos_pi_sub]
  ring

lemma _cluster_chain' {n : ℕ} (hn : 2 ≤ n) :
    List.Chain' (· < ·) (_cluster n) := by
  rw [_cluster_eq_map, List.range_eq_range']
  apply chain'_lt_map_range'
  intro i _ hi1
  exact clusterF_mono hn (Nat.lt_succ_self i) (by omega)

/-- Claim C9: for every point count `N ≥ 2`, the clustering function returns
the sequence `0.5 * (1 - cos (π i / (N-1)))`, which is strictly increasing,
has first element exactly `0` and last element exactly `1`, and is symmetric:
`value i + value (N-1-i) = 1` for every index `i`. -/
theorem cluster_formula_mono_endpoints_symm (N : ℕ) (hN : 2 ≤ N) :
    (∀ i < N, (_cluster N).getD i 0 =
      0.5 * (1 - Real.cos (Real.pi * (i : ℝ) / ((N - 1 : ℕ) : ℝ)))) ∧
    List.Chain' (· < ·) (_cluster N) ∧
    (_cluster N).getD 0 0 = 0 ∧
    (_cluster N).getD (N - 1) 0 = 1 ∧
    (∀ i < N, (_cluster N).getD i 0 + (_cluster N).getD (N - 1 - i) 0 = 1) := by
  refine ⟨fun i hi => ?_, _cluster_chain' hN, ?_, ?_, fun i hi => ?_⟩
  · rw [_cluster_getD hi, clusterF]
  · rw [_cluster_getD (by omega), clusterF_zero]
  · rw [_cluster_getD (by omega), clusterF_last hN]
  · rw [_cluster_getD hi, _cluster_getD (by omega : N - 1 - i < N)]
    exact clusterF_symm hN (by omega)

/-- Witness for C9 at the concrete point count `N = 2`. -/
theorem cluster_formula_mono_endpoints_symm_witness :
    (2 ≤ 2) ∧
    ((∀ i < 2, (_cluster 2).getD i 0 =
      0.5 * (1 - Real.cos (Real.pi * (i : ℝ) / ((2 - 1 : ℕ) : ℝ)))) ∧
    List.Chain' (· < ·) (_cluster 2) ∧
    (_cluster 2).getD 0 0 = 0 ∧
    (_cluster 2).getD (2 - 1) 0 = 1 ∧
    (∀ i < 2, (_cluster 2).getD i 0 + (_cluster 2).getD (2 - 1 - i) 0 = 1)) :=
  ⟨by norm_num, cluster_formula_mono_endpoints_symm 2 (by norm_num)⟩

/-- Abbreviation: the blade-chord clustering points for `nxb = 97`. -/
def c97 (i : ℕ) : ℝ := clusterF 97 i

/-- `clust = cluster(nxb)` in `streamwise_grid`. -/
def sw_clust : List ℝ := _cluster nxb

/-- `dmax = np.diff(clust).max()` in `streamwise_grid` (`dmin` is computed by
the source but never used). -/
def sw_dmax : ℝ := npmax (diff1 sw_clust)

/-- `x_c` after `np.insert(x_c[1:], 0, clust[nxb2:] - 1)` (mirroring the
second half of the clustering in front of the leading edge). -/
def sw_xc1 : List ℝ :=
  ((sw_clust.drop (nxb / 2)).map fun v => v - 1) ++ sw_clust.tail

/-- `x_c` after `np.append(x_c[:-1], x_c[-1] + clust[:nxb2+1])` (mirroring the
first half of the clustering behind the trailing edge). -/
def sw_xc2 : List ℝ :=
  sw_xc1.dropLast ++
    ((sw_clust.take (nxb / 2 + 1)).map fun v => sw_xc1.getLastD 0 + v)

/-- `nxu = int((dx_c[0] - 0.5) / dmax)`. -/
def sw_nxu (dx_c : ℝ × ℝ) : ℤ := pyint ((dx_c.1 - 0.5) / sw_dmax)

/-- `nxd = int((dx_c[1] - 0.5) / dmax)`. -/
def sw_nxd (dx_c : ℝ × ℝ) : ℤ := pyint ((dx_c.2 - 0.5) / sw_dmax)

/-- Inlet truncate-and-rescale branch:
`x_c = x_c[x_c > -dx_c[0]]; x_c[x_c < 0] = x_c[x_c < 0] * -dx_c[0] / x_c[0]`. -/
def sw_trunc_in (l : List ℝ) (d : ℝ) : List ℝ :=
  (l.filter fun v => decide (-d < v)).map fun v =>
    if v < 0 then v * -d / (l.filter fun v => decide (-d < v)).headI else v

/-- Outlet truncate-and-rescale branch:
`x_c = x_c[x_c < dx_c[1] + 1]; x_c[x_c > 1] = (x_c[x_c > 1] - 1) * dx_c[1] / (x_c[-1] - 1) + 1`. -/
def sw_trunc_out (l : List ℝ) (d : ℝ) : List ℝ :=
  (l.filter fun v => decide (v < d + 1)).map fun v =>
    if 1 < v then
      (v - 1) * d / ((l.filter fun v => decide (v < d + 1)).getLastD 0 - 1) + 1
    else v

/-- `x_c` after the inlet extend-or-truncate step of `streamwise_grid`. -/
def sw_xc3 (dx_c : ℝ × ℝ) : List ℝ :=
  if 0 < sw_nxu dx_c then
    linspace (-dx_c.1) sw_xc2.headI (sw_nxu dx_c).toNat ++ sw_xc2.tail
  else sw_trunc_in sw_xc2 dx_c.1

/-- `x_c` after the outlet extend-or-truncate step of `streamwise_grid`. -/
def sw_xc4 (dx_c : ℝ × ℝ) : List ℝ :=
  if 0 < sw_nxd dx_c then
    (sw_xc3 dx_c).dropLast ++
      linspace ((sw_xc3 dx_c).getLastD 0) (dx_c.2 + 1) (sw_nxd dx_c).toNat
  else sw_trunc_out (sw_xc3 dx_c) dx_c.2

/-- `streamwise_grid` from `hmesh.py`: the final coordinate vector together
with the edge-index pair `i_edge = [np.where(x_c == 0)[0][0], np.where(x_c == 1)[0][0]]`
(index of the first entry equal to `0.0`, index of the first entry equal to `1`). -/
def streamwise_grid (dx_c : ℝ × ℝ) : List ℝ × ℕ × ℕ :=
  (sw_xc4 dx_c,
    (sw_xc4 dx_c).findIdx fun v => decide (v = 0),
    (sw_xc4 dx_c).findIdx fun v => decide (v = 1))

lemma c97_mono {i j : ℕ} (hij : i < j) (hj : j ≤ 96) : c97 i < c97 j :=
  clusterF_mono (by norm_num) hij (by omega)

lemma c97_zero : c97 0 = 0 := clusterF_zero 97

lemma c97_96 : c97 96 = 1 := by
  have h := clusterF_last (n := 97) (by norm_num)
  simpa [c97] using h

lemma c97_nonneg (i : ℕ) : 0 ≤ c97 i := clusterF_nonneg 97 i

lemma c97_le_one (i : ℕ) : c97 i ≤ 1 := clusterF_le_one 97 i

lemma c97_48 : c97 48 = 1 / 2 := by
  rw [c97, clusterF]
  have h96 : ((97 - 1 : ℕ) : ℝ) = 96 := by norm_num
  rw [h96]
  have harg : Real.pi * ((48 : ℕ) : ℝ) / 96 = Real.pi / 2 := by
    push_cast
    ring
  rw [harg, Real.cos_pi_div_two]
  norm_num

lemma c97_1_pos : 0 < c97 1 := by
  have := c97_mono (i := 0) (j := 1) (by norm_num) (by norm_num)
  rw [c97_zero] at this
  exact this

lemma c97_1_lt_half : c97 1 < 1 / 2 := by
  have := c97_mono (i := 1) (j := 48) (by norm_num) (by norm_num)
  rw [c97_48] at this
  exact this

lemma c97_95 : c97 95 = 1 - c97 1 := by
  have h := clusterF_symm (n := 97) (by norm_num) (i := 1) (by norm_num)
  have h95 : (97 - 1 - 1 : ℕ) = 95 := by norm_num
  rw [h95] at h
  have : clusterF 97 1 + clusterF 97 95 = 1 := h
  rw [c97, c97]
  linarith

lemma c97_95_lt_one : c97 95 < 1 := by
  rw [c97_95]
  linarith [c97_1_pos]

lemma c97_1_gt : 1 / 10000 < c97 1 := by
  have hpil : (3.1415 : ℝ) < Real.pi := Real.pi_gt_d4
  have hpiu : Real.pi < 3.1416 := Real.pi_lt_d4
  have harg : Real.pi * ((1 : ℕ) : ℝ) / ((97 - 1 : ℕ) : ℝ) =
      2 * (Real.pi / 192) := by
    push_cast
    ring
  have hxl : (0.01636 : ℝ) < Real.pi / 192 := by linarith
  have hxu : Real.pi / 192 < (0.016363 : ℝ) := by linarith
  have hsin := Real.sin_gt_sub_cube (x := Real.pi / 192) (by linarith)
    (by linarith)
  have hcube : (Real.pi / 192) ^ 3 / 4 < 0.0000011 := by
    have hp3 : (Real.pi / 192) ^ 3 < (0.016363 : ℝ) ^ 3 :=
      pow_lt_pow_left hxu (by linarith) (by norm_num)
    nlinarith
  have hs : (0.0163 : ℝ) < Real.sin (Real.pi / 192) := by nlinarith
  have hcos2 : Real.cos (2 * (Real.pi / 192)) =
      1 - 2 * Real.sin (Real.pi / 192) ^ 2 := by
    have h1 := Real.cos_two_mul (Real.pi / 192)
    have h2 := Real.sin_sq_add_cos_sq (Real.pi / 192)
    nlinarith
  rw [c97, clusterF, harg, hcos2]
  nlinarith

lemma sw_dmax_pos : 0 < sw_dmax := by
  have hlen : (diff1 sw_clust).length = 96 := by
    rw [diff1, List.length_zipWith, List.length_tail, sw_clust]
    rw [_cluster_length]
    rfl
  have hne : diff1 sw_clust ≠ [] := by
    intro h
    rw [h] at hlen
    simp at hlen
  have hmem : (diff1 sw_clust).headI ∈ diff1 sw_clust := headI_mem hne
  have hhead : (diff1 sw_clust).headI = c97 1 - c97 0 := by
    have hcl : sw_clust = (List.range 97).map c97 := by
      rw [sw_clust]
      have hnxb : nxb = 97 := rfl
      rw [hnxb, _cluster_eq_map]
      rfl
    rw [diff1, hcl]
    rfl
  have : c97 1 - c97 0 ≤ sw_dmax := by
    rw [← hhead]
    exact le_foldr_max hmem
  rw [c97_zero] at this
  linarith [c97_1_pos]

/-- First block of `sw_xc2`: the mirrored clustering in front of the leading
edge, `clust[48:] - 1`. -/
def swB1 : List ℝ := (List.range' 48 49).map fun i => c97 i - 1

/-- Middle block of `sw_xc2`: the interior clustering points `clust[1:96]`. -/
def swB2 : List ℝ := (List.range' 1 95).map c97

/-- Last block of `sw_xc2`: the mirrored clustering behind the trailing edge,
`1 + clust[:49]`. -/
def swB3 : List ℝ := (List.range' 0 49).map fun i => 1 + c97 i

lemma sw_clust_eq : sw_clust = (List.range 97).map c97 := by
  rw [sw_clust]
  have hnxb : nxb = 97 := rfl
  rw [hnxb, _cluster_eq_map]
  rfl

lemma sw_clust_drop48 : sw_clust.drop 48 = (List.range' 48 49).map c97 := by
  rw [sw_clust_eq, ← List.map_drop, List.range_eq_range']
  have hsplit : List.range' 0 97 = List.range' 0 48 ++ List.range' 48 49 := by
    have h := List.range'_append_1 0 48 49
    simpa using h.symm
  rw [hsplit, List.drop_left' (by simp)]

lemma sw_clust_take49 : sw_clust.take 49 = (List.range' 0 49).map c97 := by
  rw [sw_clust_eq, ← List.map_take, List.range_eq_range']
  have hsplit : List.range' 0 97 = List.range' 0 49 ++ List.range' 49 48 := by
    have h := List.range'_append_1 0 49 48
    simpa using h.symm
  rw [hsplit, List.take_left' (by simp)]

lemma sw_clust_tail : sw_clust.tail = (List.range' 1 96).map c97 := by
  rw [sw_clust_eq, ← List.map_tail, List.tail_range]

lemma sw_xc1_eq :
    sw_xc1 = ((List.range' 48 49).map fun i => c97 i - 1) ++
      (List.range' 1 96).map c97 := by
  rw [sw_xc1]
  have h2 : nxb / 2 = 48 := rfl
  rw [h2, sw_clust_drop48, sw_clust_tail, List.map_map]
  rfl

lemma sw_xc1_getLastD : sw_xc1.getLastD 0 = 1 := by
  rw [sw_xc1_eq, getLastD_append_of_ne_nil (by simp), List.getLastD_eq_getLast?,
    getLast?_map_range' c97 1 96 (by norm_num)]
  have : (1 + 96 - 1 : ℕ) = 96 := by norm_num
  rw [this]
  simp [c97_96]

lemma sw_xc1_dropLast :
    sw_xc1.dropLast = swB1 ++ (List.range' 1 95).map c97 := by
  rw [sw_xc1_eq]
  have hsplit : List.range' 1 96 = List.range' 1 95 ++ [96] := by
    have h := List.range'_1_concat 1 95
    simpa using h
  rw [hsplit, List.map_append]
  simp only [List.map_cons, List.map_nil]
  rw [← List.append_assoc, List.dropLast_concat]
  rfl

lemma sw_xc2_eq : sw_xc2 = swB1 ++ (swB2 ++ swB3) := by
  rw [sw_xc2]
  have h2 : nxb / 2 + 1 = 49 := rfl
  rw [h2, sw_xc1_dropLast]
  simp only [sw_xc1_getLastD]
  rw [sw_clust_take49, List.map_map, List.append_assoc]
  rfl

lemma headI_append_of_ne_nil {l₁ l₂ : List ℝ} (h : l₁ ≠ []) :
    (l₁ ++ l₂).headI = l₁.headI := by
  cases l₁ with
  | nil => exact absurd rfl h
  | cons a t => simp

lemma headI_of_head? {l : List ℝ} {a : ℝ} (h : l.head? = some a) :
    l.headI = a := by
  cases l with
  | nil => simp at h
  | cons b t =>
    simp only [List.head?_cons, Option.some.injEq] at h
    simp [h]

lemma cons_headI_tail {l : List ℝ} (h : l ≠ []) : l = l.headI :: l.tail := by
  cases l with
  | nil => exact absurd rfl h
  | cons a t => rfl

lemma pairwise_map_range' {h : ℕ → ℝ} {s n : ℕ}
    (H : ∀ i j, s ≤ i → i < j → j < s + n → h i < h j) :
    List.Pairwise (· < ·) ((List.range' s n).map h) := by
  rw [List.pairwise_map]
  apply (List.pairwise_lt_range' s n).imp_of_mem
  intro a b ha hb hab
  rw [List.mem_range'_1] at ha hb
  exact H a b ha.1 hab hb.2

lemma swB1_pairwise : List.Pairwise (· < ·) swB1 := by
  apply pairwise_map_range'
  intro i j hi hij hj
  have := c97_mono hij (by omega)
  linarith

lemma swB2_pairwise : List.Pairwise (· < ·) swB2 := by
  apply pairwise_map_range'
  intro i j hi hij hj
  exact c97_mono hij (by omega)

lemma swB3_pairwise : List.Pairwise (· < ·) swB3 := by
  apply pairwise_map_range'
  intro i j hi hij hj
  have := c97_mono hij (by omega)
  linarith

lemma swB1_mem_le_zero {a : ℝ} (ha : a ∈ swB1) : a ≤ 0 := by
  rcases List.mem_map.mp ha with ⟨i, hi, rfl⟩
  have := c97_le_one i
  norm_num
  linarith

lemma swB1_mem_ge {a : ℝ} (ha : a ∈ swB1) : -(1 / 2) ≤ a := by
  rcases List.mem_map.mp ha with ⟨i, hi, rfl⟩
  rw [List.mem_range'_1] at hi
  have h48 : c97 48 ≤ c97 i := by
    rcases Nat.eq_or_lt_of_le hi.1 with heq | hlt
    · rw [heq]
    · exact le_of_lt (c97_mono hlt (by omega))
  rw [c97_48] at h48
  norm_num
  linarith

lemma swB2_mem_pos {a : ℝ} (ha : a ∈ swB2) : 0 < a := by
  rcases List.mem_map.mp ha with ⟨i, hi, rfl⟩
  rw [List.mem_range'_1] at hi
  have := c97_mono (i := 0) (j := i) (by omega) (by omega)
  rw [c97_zero] at this
  exact this

lemma swB2_mem_lt_one {a : ℝ} (ha : a ∈ swB2) : a < 1 := by
  rcases List.mem_map.mp ha with ⟨i, hi, rfl⟩
  rw [List.mem_range'_1] at hi
  have h95 : c97 i ≤ c97 95 := by
    rcases Nat.eq_or_lt_of_le (by omega : i ≤ 95) with heq | hlt
    · rw [heq]
    · exact le_of_lt (c97_mono hlt (by omega))
  linarith [c97_95_lt_one]

lemma swB3_mem_ge_one {a : ℝ} (ha : a ∈ swB3) : 1 ≤ a := by
  rcases List.mem_map.mp ha with ⟨i, hi, rfl⟩
  linarith [c97_nonneg i]

lemma swB3_mem_le {a : ℝ} (ha : a ∈ swB3) : a ≤ 3 / 2 := by
  rcases List.mem_map.mp ha with ⟨i, hi, rfl⟩
  rw [List.mem_range'_1] at hi
  have h48 : c97 i ≤ c97 48 := by
    rcases Nat.eq_or_lt_of_le (by omega : i ≤ 48) with heq | hlt
    · rw [heq]
    · exact le_of_lt (c97_mono hlt (by omega))
  rw [c97_48] at h48
  linarith

lemma sw_xc2_pairwise : List.Pairwise (· < ·) sw_xc2 := by
  rw [sw_xc2_eq]
  rw [List.pairwise_append]
  refine ⟨swB1_pairwise, ?_, ?_⟩
  · rw [List.pairwise_append]
    refine ⟨swB2_pairwise, swB3_pairwise, ?_⟩
    intro a ha b hb
    exact lt_of_lt_of_le (swB2_mem_lt_one ha) (swB3_mem_ge_one hb)
  · intro a ha b hb
    have ha0 := swB1_mem_le_zero ha
    rcases List.mem_append.mp hb with hb2 | hb3
    · exact lt_of_le_of_lt ha0 (swB2_mem_pos hb2)
    · exact lt_of_le_of_lt ha0 (lt_of_lt_of_le one_pos (swB3_mem_ge_one hb3))

lemma sw_xc2_chain : List.Chain' (· < ·) sw_xc2 :=
  sw_xc2_pairwise.chain'

lemma sw_xc2_count0 : countVal 0 sw_xc2 = 1 := by
  rw [sw_xc2_eq, countVal_append, countVal_append]
  have h1 : countVal 0 swB1 = 1 := by
    apply countVal_map_nodup (List.nodup_range' 48 49) 96
      (by rw [List.mem_range'_1]; omega)
    intro i hi
    rw [List.mem_range'_1] at hi
    constructor
    · intro hv
      by_contra hne
      have hi96 : i < 96 := by omega
      have := c97_mono hi96 (le_refl 96)
      rw [c97_96] at this
      have : c97 i - 1 < 0 := by linarith
      linarith [hv ▸ this]
    · intro hv
      rw [hv, c97_96]
      norm_num
  have h2 : countVal 0 swB2 = 0 := by
    apply countVal_eq_zero
    intro u hu
    exact ne_of_gt (swB2_mem_pos hu)
  have h3 : countVal 0 swB3 = 0 := by
    apply countVal_eq_zero
    intro u hu
    have := swB3_mem_ge_one hu
    intro h
    rw [h] at this
    linarith
  omega

lemma sw_xc2_count1 : countVal 1 sw_xc2 = 1 := by
  rw [sw_xc2_eq, countVal_append, countVal_append]
  have h1 : countVal 1 swB1 = 0 := by
    apply countVal_eq_zero
    intro u hu
    have := swB1_mem_le_zero hu
    intro h
    rw [h] at this
    linarith
  have h2 : countVal 1 swB2 = 0 := by
    apply countVal_eq_zero
    intro u hu
    exact ne_of_lt (swB2_mem_lt_one hu)
  have h3 : countVal 1 swB3 = 1 := by
    apply countVal_map_nodup (List.nodup_range' 0 49) 0
      (by rw [List.mem_range'_1]; omega)
    intro i hi
    rw [List.mem_range'_1] at hi
    constructor
    · intro hv
      by_contra hne
      have hi0 : 0 < i := by omega
      have := c97_mono hi0 (by omega : i ≤ 96)
      rw [c97_zero] at this
      linarith [hv]
    · intro hv
      rw [hv, c97_zero]
      norm_num
  omega

lemma swB1_ne_nil : swB1 ≠ [] := by
  rw [swB1]
  simp [List.range'_ne_nil]

lemma sw_xc2_headI : sw_xc2.headI = -(1 / 2) := by
  rw [sw_xc2_eq, headI_append_of_ne_nil swB1_ne_nil, swB1,
    headI_of_head? (head?_map_range' (fun i => c97 i - 1) 48 49 (by norm_num))]
  show c97 48 - 1 = -(1 / 2)
  rw [c97_48]
  norm_num

lemma sw_xc2_getLastD : sw_xc2.getLastD 0 = 3 / 2 := by
  rw [sw_xc2_eq, getLastD_append_of_ne_nil (by simp [swB2, swB3, List.range'_ne_nil]),
    getLastD_append_of_ne_nil (by simp [swB3, List.range'_ne_nil])]
  rw [swB3, List.getLastD_eq_getLast?,
    getLast?_map_range' (fun i => 1 + c97 i) 0 49 (by norm_num)]
  have h48 : (0 + 49 - 1 : ℕ) = 48 := by norm_num
  rw [h48]
  simp [c97_48]
  norm_num

lemma sw_xc2_ne_nil : sw_xc2 ≠ [] := by
  rw [sw_xc2_eq]
  intro h
  rcases List.append_eq_nil.mp h with ⟨h1, _⟩
  exact swB1_ne_nil h1

lemma sw_xc2_tail_gt : ∀ b ∈ sw_xc2.tail, -(1 / 2) < b := by
  intro b hb
  have hcons := cons_headI_tail sw_xc2_ne_nil
  have hp := sw_xc2_pairwise
  rw [hcons, List.pairwise_cons] at hp
  have := hp.1 b hb
  rw [sw_xc2_headI] at this
  exact this

lemma sw_xc2_gt_one : ∀ v ∈ sw_xc2, 1 < v → 1 + c97 1 ≤ v := by
  intro v hv hv1
  rw [sw_xc2_eq] at hv
  rcases List.mem_append.mp hv with h1 | h23
  · linarith [swB1_mem_le_zero h1]
  rcases List.mem_append.mp h23 with h2 | h3
  · linarith [swB2_mem_lt_one h2]
  · rcases List.mem_map.mp h3 with ⟨i, hi, rfl⟩
    rw [List.mem_range'_1] at hi
    rcases Nat.eq_zero_or_pos i with rfl | hipos
    · rw [c97_zero] at hv1 ⊢
      norm_num at hv1
    · have : c97 1 ≤ c97 i := by
        rcases Nat.eq_or_lt_of_le hipos with heq | hlt
        · rw [← heq]
        · exact le_of_lt (c97_mono hlt (by omega))
      linarith

lemma sw_xc2_mem_b1_95 : c97 95 - 1 ∈ sw_xc2 := by
  rw [sw_xc2_eq]
  apply List.mem_append_left
  apply List.mem_map.mpr
  exact ⟨95, by rw [List.mem_range'_1]; omega, rfl⟩

lemma sw_xc2_mem_b3_1 : 1 + c97 1 ∈ sw_xc2 := by
  rw [sw_xc2_eq]
  apply List.mem_append_right
  apply List.mem_append_right
  apply List.mem_map.mpr
  exact ⟨1, by rw [List.mem_range'_1]; omega, rfl⟩

lemma sw_xc2_mem0 : (0 : ℝ) ∈ sw_xc2 :=
  mem_of_countVal_ne_zero (by rw [sw_xc2_count0]; omega)

lemma sw_xc2_mem1 : (1 : ℝ) ∈ sw_xc2 :=
  mem_of_countVal_ne_zero (by rw [sw_xc2_count1]; omega)

lemma getLast?_eq_getLastD {l : List ℝ} (h : l ≠ []) :
    l.getLast? = some (l.getLastD 0) := by
  rw [List.getLastD_eq_getLast?, List.getLast?_eq_getLast l h]
  simp

lemma sw_nxu_gt_half {dx : ℝ × ℝ} (h : 0 < sw_nxu dx) : 1 / 2 < dx.1 := by
  rw [sw_nxu] at h
  have h1 := pyint_pos_iff.mp h
  have hm := sw_dmax_pos
  rw [le_div_iff hm] at h1
  linarith

lemma sw_nxd_gt_half {dx : ℝ × ℝ} (h : 0 < sw_nxd dx) : 1 / 2 < dx.2 := by
  rw [sw_nxd] at h
  have h1 := pyint_pos_iff.mp h
  have hm := sw_dmax_pos
  rw [le_div_iff hm] at h1
  linarith

lemma sw_xc2_cons_tail : sw_xc2 = -(1 / 2) :: sw_xc2.tail := by
  rw [← sw_xc2_headI]
  exact cons_headI_tail sw_xc2_ne_nil

lemma sw_xc2_tail_count0 : countVal 0 sw_xc2.tail = 1 := by
  have h := sw_xc2_count0
  rw [sw_xc2_cons_tail, countVal_cons] at h
  rw [if_neg (by norm_num)] at h
  omega

lemma sw_xc2_tail_count1 : countVal 1 sw_xc2.tail = 1 := by
  have h := sw_xc2_count1
  rw [sw_xc2_cons_tail, countVal_cons] at h
  rw [if_neg (by norm_num)] at h
  omega

lemma sw_xc2_tail_ne_nil : sw_xc2.tail ≠ [] :=
  List.ne_nil_of_mem (mem_of_countVal_ne_zero (v := 0)
    (by rw [sw_xc2_tail_count0]; omega))

lemma sw_xc2_tail_getLastD : sw_xc2.tail.getLastD 0 = 3 / 2 := by
  have h := sw_xc2_getLastD
  rw [sw_xc2_cons_tail] at h
  rw [List.getLastD_eq_getLast?] at h ⊢
  rw [getLast?_cons_of_ne_nil sw_xc2_tail_ne_nil] at h
  exact h

/-- Facts about the inlet extend branch of `streamwise_grid` (`nxu > 0`). -/
lemma sw_xc3_extend_facts {dx : ℝ × ℝ} (hbr : 0 < sw_nxu dx) :
    List.Chain' (· < ·) (sw_xc3 dx) ∧
    countVal 0 (sw_xc3 dx) = 1 ∧ countVal 1 (sw_xc3 dx) = 1 ∧
    (sw_xc3 dx).getLastD 0 = 3 / 2 ∧
    (∀ v ∈ sw_xc2, 0 ≤ v → v ∈ sw_xc3 dx) ∧
    (∀ v ∈ sw_xc3 dx, 1 < v → v ∈ sw_xc2) ∧
    (sw_xc3 dx).headI = -dx.1 := by
  have hhalf := sw_nxu_gt_half hbr
  have hab : -dx.1 < -(1 / 2) := by linarith
  have hn : 0 < (sw_nxu dx).toNat := by omega
  rw [sw_xc3, if_pos hbr, sw_xc2_headI]
  have hLb : ∀ v ∈ linspace (-dx.1) (-(1 / 2)) (sw_nxu dx).toNat,
      -dx.1 ≤ v ∧ v ≤ -(1 / 2) := fun v hv => linspace_mem_bounds hab.le hv
  have hpT : List.Pairwise (· < ·) sw_xc2.tail :=
    List.Pairwise.sublist (List.tail_sublist sw_xc2) sw_xc2_pairwise
  have hpL : List.Pairwise (· < ·) (linspace (-dx.1) (-(1 / 2)) (sw_nxu dx).toNat) := by
    rw [← List.chain'_iff_pairwise]
    exact linspace_chain' hab _
  refine ⟨?_, ?_, ?_, ?_, ?_, ?_, ?_⟩
  · rw [List.chain'_iff_pairwise, List.pairwise_append]
    refine ⟨hpL, hpT, ?_⟩
    intro a ha b hb
    exact lt_of_le_of_lt (hLb a ha).2 (sw_xc2_tail_gt b hb)
  · rw [countVal_append, sw_xc2_tail_count0]
    have : countVal 0 (linspace (-dx.1) (-(1 / 2)) (sw_nxu dx).toNat) = 0 := by
      apply countVal_eq_zero
      intro u hu
      have := (hLb u hu).2
      intro h
      rw [h] at this
      linarith
    omega
  · rw [countVal_append, sw_xc2_tail_count1]
    have : countVal 1 (linspace (-dx.1) (-(1 / 2)) (sw_nxu dx).toNat) = 0 := by
      apply countVal_eq_zero
      intro u hu
      have := (hLb u hu).2
      intro h
      rw [h] at this
      linarith
    omega
  · rw [getLastD_append_of_ne_nil sw_xc2_tail_ne_nil, sw_xc2_tail_getLastD]
  · intro v hv hv0
    rw [sw_xc2_cons_tail] at hv
    rcases List.mem_cons.mp hv with rfl | hvt
    · linarith
    · exact List.mem_append_right _ hvt
  · intro v hv hv1
    rcases List.mem_append.mp hv with hvl | hvt
    · linarith [(hLb v hvl).2]
    · exact List.mem_of_mem_tail hvt
  · rw [headI_append_of_ne_nil (linspace_ne_nil hn), linspace_headI hn]

/-- Facts about the inlet truncate branch of `streamwise_grid` (`nxu ≤ 0`). -/
lemma sw_xc3_trunc_facts {dx : ℝ × ℝ} (hbr : ¬ 0 < sw_nxu dx) (hd : 0 < dx.1) :
    List.Chain' (· < ·) (sw_xc3 dx) ∧
    countVal 0 (sw_xc3 dx) = 1 ∧ countVal 1 (sw_xc3 dx) = 1 ∧
    (sw_xc3 dx).getLastD 0 = 3 / 2 ∧
    (∀ v ∈ sw_xc2, 0 ≤ v → v ∈ sw_xc3 dx) ∧
    (∀ v ∈ sw_xc3 dx, 1 < v → v ∈ sw_xc2) ∧
    (c97 1 < dx.1 → (sw_xc3 dx).headI = -dx.1) := by
  rw [sw_xc3, if_neg hbr, sw_trunc_in]
  have hp0 : (decide (-dx.1 < (0 : ℝ))) = true := by
    rw [decide_eq_true_iff]
    linarith
  have hp1 : (decide (-dx.1 < (1 : ℝ))) = true := by
    rw [decide_eq_true_iff]
    linarith
  have h0mem : (0 : ℝ) ∈ sw_xc2.filter fun v => decide (-dx.1 < v) :=
    List.mem_filter.mpr ⟨sw_xc2_mem0, hp0⟩
  have h1mem : (1 : ℝ) ∈ sw_xc2.filter fun v => decide (-dx.1 < v) :=
    List.mem_filter.mpr ⟨sw_xc2_mem1, hp1⟩
  have htne : (sw_xc2.filter fun v => decide (-dx.1 < v)) ≠ [] :=
    List.ne_nil_of_mem h0mem
  have hpt : List.Pairwise (· < ·) (sw_xc2.filter fun v => decide (-dx.1 < v)) :=
    List.Pairwise.sublist (List.filter_sublist sw_xc2) sw_xc2_pairwise
  have hct : List.Chain' (· < ·) (sw_xc2.filter fun v => decide (-dx.1 < v)) :=
    hpt.chain'
  have hcount0t : countVal 0 (sw_xc2.filter fun v => decide (-dx.1 < v)) = 1 := by
    rw [countVal_filter hp0, sw_xc2_count0]
  have hcount1t : countVal 1 (sw_xc2.filter fun v => decide (-dx.1 < v)) = 1 := by
    rw [countVal_filter hp1, sw_xc2_count1]
  have hlastt : (sw_xc2.filter fun v => decide (-dx.1 < v)).getLast? =
      some (3 / 2) := by
    apply getLast?_of_filter
    · rw [decide_eq_true_iff]
      linarith
    · rw [getLast?_eq_getLastD sw_xc2_ne_nil, sw_xc2_getLastD]
  have hlasttD : (sw_xc2.filter fun v => decide (-dx.1 < v)).getLastD 0 = 3 / 2 := by
    rw [List.getLastD_eq_getLast?, hlastt]
    rfl
  have hheadle : (sw_xc2.filter fun v => decide (-dx.1 < v)).headI ≤ 0 :=
    sorted_headI_le hct h0mem
  by_cases hh : (sw_xc2.filter fun v => decide (-dx.1 < v)).headI < 0
  · -- rescaling with a strictly positive factor
    have hk : 0 < -dx.1 / (sw_xc2.filter fun v => decide (-dx.1 < v)).headI :=
      div_pos_of_neg_of_neg (by linarith) hh
    have hfmono : ∀ a b : ℝ, a < b →
        (if a < 0 then a * -dx.1 / (sw_xc2.filter fun v => decide (-dx.1 < v)).headI else a) <
        (if b < 0 then b * -dx.1 / (sw_xc2.filter fun v => decide (-dx.1 < v)).headI else b) := by
      intro a b hab
      by_cases ha : a < 0
      · rw [if_pos ha]
        by_cases hb : b < 0
        · rw [if_pos hb, mul_div_assoc, mul_div_assoc]
          exact mul_lt_mul_of_pos_right hab hk
        · rw [if_neg hb]
          have h1 : a * -dx.1 / (sw_xc2.filter fun v => decide (-dx.1 < v)).headI < 0 := by
            rw [mul_div_assoc]
            exact mul_neg_of_neg_of_pos ha hk
          push_neg at hb
          linarith
      · rw [if_neg ha]
        have hb : ¬ b < 0 := by
          push_neg at ha ⊢
          linarith
        rw [if_neg hb]
        exact hab
    have hfix : ∀ u : ℝ, (0 : ℝ) ≤ u →
        (if u < 0 then u * -dx.1 / (sw_xc2.filter fun v => decide (-dx.1 < v)).headI else u) = u :=
      fun u hu => if_neg (not_lt.mpr hu)
    refine ⟨chain'_lt_map hfmono hct, ?_, ?_, ?_, ?_, ?_, fun _ => ?_⟩
    · rw [countVal_map_of_iff, hcount0t]
      intro u hu
      constructor
      · intro hfu
        by_cases hu0 : u < 0
        · rw [if_pos hu0, mul_div_assoc] at hfu
          exact absurd hfu (ne_of_lt (mul_neg_of_neg_of_pos hu0 hk))
        · rwa [if_neg hu0] at hfu
      · intro hu0
        rw [hu0]
        exact hfix 0 le_rfl
    · rw [countVal_map_of_iff, hcount1t]
      intro u hu
      constructor
      · intro hfu
        by_cases hu0 : u < 0
        · rw [if_pos hu0, mul_div_assoc] at hfu
          have := mul_neg_of_neg_of_pos hu0 hk
          rw [hfu] at this
          linarith
        · rwa [if_neg hu0] at hfu
      · intro hu0
        rw [hu0, if_neg (by norm_num)]
    · rw [List.getLastD_eq_getLast?, List.getLast?_map, hlastt]
      simp only [Option.map_some', Option.getD_some]
      rw [if_neg (by norm_num)]
    · intro v hv hv0
      apply List.mem_map.mpr
      refine ⟨v, List.mem_filter.mpr ⟨hv, ?_⟩, hfix v hv0⟩
      rw [decide_eq_true_iff]
      linarith
    · intro v hv hv1
      rcases List.mem_map.mp hv with ⟨u, hu, rfl⟩
      by_cases hu0 : u < 0
      · rw [if_pos hu0, mul_div_assoc] at hv1
        have := mul_neg_of_neg_of_pos hu0 hk
        linarith
      · rw [if_neg hu0] at hv1 ⊢
        exact List.mem_of_mem_filter hu
    · rw [headI_map htne, if_pos hh, mul_comm,
        mul_div_cancel_right₀ _ (ne_of_lt hh)]
  · -- no negative entries survive the filter: the rescaling is the identity
    have hall : ∀ v ∈ sw_xc2.filter fun v => decide (-dx.1 < v), ¬ v < 0 := by
      intro v hv
      have := sorted_headI_le hct hv
      push_neg at hh
      push_neg
      linarith
    have hres : ((sw_xc2.filter fun v => decide (-dx.1 < v)).map fun v =>
        if v < 0 then v * -dx.1 / (sw_xc2.filter fun v => decide (-dx.1 < v)).headI else v) =
        sw_xc2.filter fun v => decide (-dx.1 < v) := by
      have hcongr := List.map_congr_left (l := sw_xc2.filter fun v => decide (-dx.1 < v))
        (f := fun v => if v < 0 then v * -dx.1 / (sw_xc2.filter fun v => decide (-dx.1 < v)).headI else v)
        (g := fun v => v) (fun a ha => if_neg (hall a ha))
      rw [hcongr, List.map_id']
    rw [hres]
    refine ⟨hct, hcount0t, hcount1t, hlasttD, ?_, ?_, ?_⟩
    · intro v hv hv0
      refine List.mem_filter.mpr ⟨hv, ?_⟩
      rw [decide_eq_true_iff]
      linarith
    · intro v hv _
      exact List.mem_of_mem_filter hv
    · intro hc
      exfalso
      have hmem : c97 95 - 1 ∈ sw_xc2.filter fun v => decide (-dx.1 < v) := by
        refine List.mem_filter.mpr ⟨sw_xc2_mem_b1_95, ?_⟩
        rw [decide_eq_true_iff, c97_95]
        norm_num
        linarith
      have hle := sorted_headI_le hct hmem
      have hneg : c97 95 - 1 < 0 := by
        have := c97_95_lt_one
        norm_num
        linarith
      push_neg at hh
      linarith

/-- Combined facts about `x_c` after the inlet step, for any `dx_c[0] > 0`. -/
lemma sw_xc3_facts {dx : ℝ × ℝ} (hd : 0 < dx.1) :
    List.Chain' (· < ·) (sw_xc3 dx) ∧
    countVal 0 (sw_xc3 dx) = 1 ∧ countVal 1 (sw_xc3 dx) = 1 ∧
    (sw_xc3 dx).getLastD 0 = 3 / 2 ∧
    (∀ v ∈ sw_xc2, 0 ≤ v → v ∈ sw_xc3 dx) ∧
    (∀ v ∈ sw_xc3 dx, 1 < v → v ∈ sw_xc2) ∧
    (c97 1 < dx.1 → (sw_xc3 dx).headI = -dx.1) := by
  by_cases hbr : 0 < sw_nxu dx
  · have h := sw_xc3_extend_facts hbr
    exact ⟨h.1, h.2.1, h.2.2.1, h.2.2.2.1, h.2.2.2.2.1, h.2.2.2.2.2.1,
      fun _ => h.2.2.2.2.2.2⟩
  · exact sw_xc3_trunc_facts hbr hd

lemma sw_xc3_ne_nil {dx : ℝ × ℝ} (hd : 0 < dx.1) : sw_xc3 dx ≠ [] :=
  List.ne_nil_of_mem (mem_of_countVal_ne_zero (v := 0)
    (by rw [(sw_xc3_facts hd).2.1]; omega))

lemma sw_xc3_mem0 {dx : ℝ × ℝ} (hd : 0 < dx.1) : (0 : ℝ) ∈ sw_xc3 dx :=
  mem_of_countVal_ne_zero (by rw [(sw_xc3_facts hd).2.1]; omega)

lemma sw_xc3_mem1 {dx : ℝ × ℝ} (hd : 0 < dx.1) : (1 : ℝ) ∈ sw_xc3 dx :=
  mem_of_countVal_ne_zero (by rw [(sw_xc3_facts hd).2.2.1]; omega)

/-- Facts about the outlet extend branch (`nxd > 0`). -/
lemma sw_xc4_extend_facts {dx : ℝ × ℝ} (hbr : 0 < sw_nxd dx) (hd1 : 0 < dx.1) :
    List.Chain' (· < ·) (sw_xc4 dx) ∧
    countVal 0 (sw_xc4 dx) = 1 ∧ countVal 1 (sw_xc4 dx) = 1 ∧
    (2 ≤ (sw_nxd dx).toNat → (sw_xc4 dx).getLastD 0 = dx.2 + 1) ∧
    (sw_xc4 dx).headI = (sw_xc3 dx).headI := by
  obtain ⟨hch, hc0, hc1, hlast, hmem, hclass, hheadI⟩ := sw_xc3_facts hd1
  have hhalf := sw_nxd_gt_half hbr
  have hab : (3 / 2 : ℝ) < dx.2 + 1 := by linarith
  have hn : 0 < (sw_nxd dx).toNat := by omega
  have hne3 := sw_xc3_ne_nil hd1
  have hlast? : (sw_xc3 dx).getLast? = some (3 / 2) := by
    rw [getLast?_eq_getLastD hne3, hlast]
  have hsplit : (sw_xc3 dx).dropLast ++ [(3 / 2 : ℝ)] = sw_xc3 dx :=
    List.dropLast_append_getLast? _ hlast?
  have hp3 : List.Pairwise (· < ·) (sw_xc3 dx) :=
    List.chain'_iff_pairwise.mp hch
  have hpD : List.Pairwise (· < ·) (sw_xc3 dx).dropLast :=
    List.Pairwise.sublist (List.dropLast_sublist _) hp3
  have hlen2 : 2 ≤ (sw_xc3 dx).length :=
    length_ge_two_of_two_mem (by norm_num) (sw_xc3_mem0 hd1) (sw_xc3_mem1 hd1)
  have hDne : (sw_xc3 dx).dropLast ≠ [] := by
    intro h
    have := List.length_dropLast (sw_xc3 dx)
    rw [h] at this
    simp at this
    omega
  have hcrossD : ∀ a ∈ (sw_xc3 dx).dropLast, a < 3 / 2 := by
    intro a ha
    have := sorted_dropLast_lt_getLastD hch ha
    rwa [hlast] at this
  have hEb : ∀ v ∈ linspace (3 / 2) (dx.2 + 1) (sw_nxd dx).toNat,
      3 / 2 ≤ v ∧ v ≤ dx.2 + 1 := fun v hv => linspace_mem_bounds hab.le hv
  have hcountD : ∀ v : ℝ, v ≠ 3 / 2 → countVal v (sw_xc3 dx).dropLast = countVal v (sw_xc3 dx) := by
    intro v hv
    conv_rhs => rw [← hsplit]
    rw [countVal_append, countVal_cons, countVal_nil, if_neg (by intro h; exact hv h.symm)]
    omega
  rw [sw_xc4, if_pos hbr, hlast]
  refine ⟨?_, ?_, ?_, ?_, ?_⟩
  · rw [List.chain'_iff_pairwise, List.pairwise_append]
    refine ⟨hpD, ?_, ?_⟩
    · rw [← List.chain'_iff_pairwise]
      exact linspace_chain' hab _
    · intro a ha b hb
      exact lt_of_lt_of_le (hcrossD a ha) (hEb b hb).1
  · rw [countVal_append, hcountD 0 (by norm_num), hc0]
    have : countVal 0 (linspace (3 / 2) (dx.2 + 1) (sw_nxd dx).toNat) = 0 := by
      apply countVal_eq_zero
      intro u hu
      have := (hEb u hu).1
      intro h
      rw [h] at this
      linarith
    omega
  · rw [countVal_append, hcountD 1 (by norm_num), hc1]
    have : countVal 1 (linspace (3 / 2) (dx.2 + 1) (sw_nxd dx).toNat) = 0 := by
      apply countVal_eq_zero
      intro u hu
      have := (hEb u hu).1
      intro h
      rw [h] at this
      linarith
    omega
  · intro h2
    rw [getLastD_append_of_ne_nil (linspace_ne_nil hn),
      linspace_getLastD_of_two_le h2]
  · rw [headI_append_of_ne_nil hDne, headI_dropLast hlen2]

/-- Facts about the outlet truncate branch (`nxd ≤ 0`). -/
lemma sw_xc4_trunc_facts {dx : ℝ × ℝ} (hbr : ¬ 0 < sw_nxd dx) (hd1 : 0 < dx.1)
    (hd2 : 0 < dx.2) :
    List.Chain' (· < ·) (sw_xc4 dx) ∧
    countVal 0 (sw_xc4 dx) = 1 ∧ countVal 1 (sw_xc4 dx) = 1 ∧
    (c97 1 < dx.2 → (sw_xc4 dx).getLastD 0 = dx.2 + 1) ∧
    (dx.2 ≤ c97 1 → (sw_xc4 dx).getLastD 0 = 1) ∧
    (sw_xc4 dx).headI = (sw_xc3 dx).headI := by
  obtain ⟨hch, hc0, hc1, hlast, hmem, hclass, hheadI⟩ := sw_xc3_facts hd1
  have hne3 := sw_xc3_ne_nil hd1
  rw [sw_xc4, if_neg hbr, sw_trunc_out]
  have hp0 : (decide ((0 : ℝ) < dx.2 + 1)) = true := by
    rw [decide_eq_true_iff]
    norm_num
    linarith
  have hp1 : (decide ((1 : ℝ) < dx.2 + 1)) = true := by
    rw [decide_eq_true_iff]
    norm_num
    linarith
  have h0mem : (0 : ℝ) ∈ (sw_xc3 dx).filter fun v => decide (v < dx.2 + 1) :=
    List.mem_filter.mpr ⟨sw_xc3_mem0 hd1, hp0⟩
  have h1mem : (1 : ℝ) ∈ (sw_xc3 dx).filter fun v => decide (v < dx.2 + 1) :=
    List.mem_filter.mpr ⟨sw_xc3_mem1 hd1, hp1⟩
  have htne : ((sw_xc3 dx).filter fun v => decide (v < dx.2 + 1)) ≠ [] :=
    List.ne_nil_of_mem h0mem
  have hpt : List.Pairwise (· < ·) ((sw_xc3 dx).filter fun v => decide (v < dx.2 + 1)) :=
    List.Pairwise.sublist (List.filter_sublist _) (List.chain'_iff_pairwise.mp hch)
  have hct : List.Chain' (· < ·) ((sw_xc3 dx).filter fun v => decide (v < dx.2 + 1)) :=
    hpt.chain'
  have hcount0t : countVal 0 ((sw_xc3 dx).filter fun v => decide (v < dx.2 + 1)) = 1 := by
    rw [countVal_filter hp0, hc0]
  have hcount1t : countVal 1 ((sw_xc3 dx).filter fun v => decide (v < dx.2 + 1)) = 1 := by
    rw [countVal_filter hp1, hc1]
  have hG1 : 1 ≤ ((sw_xc3 dx).filter fun v => decide (v < dx.2 + 1)).getLastD 0 :=
    sorted_le_getLastD hct h1mem
  have hhead0 : ((sw_xc3 dx).filter fun v => decide (v < dx.2 + 1)).headI ≤ 0 :=
    sorted_headI_le hct h0mem
  have hheadfil : ((sw_xc3 dx).filter fun v => decide (v < dx.2 + 1)).headI =
      (sw_xc3 dx).headI := by
    apply filter_headI hne3
    rw [decide_eq_true_iff]
    have hmemh := headI_mem hne3
    have := sorted_headI_le hch (sw_xc3_mem0 hd1)
    linarith
  by_cases hGgt : 1 < ((sw_xc3 dx).filter fun v => decide (v < dx.2 + 1)).getLastD 0
  · -- some entries beyond the trailing edge survive: affine rescaling
    have hsne : ((sw_xc3 dx).filter fun v => decide (v < dx.2 + 1)).getLastD 0 - 1 ≠ 0 :=
      sub_ne_zero_of_ne (ne_of_gt hGgt)
    have hs : 0 < dx.2 / (((sw_xc3 dx).filter fun v => decide (v < dx.2 + 1)).getLastD 0 - 1) :=
      div_pos hd2 (by linarith)
    have hfmono : ∀ a b : ℝ, a < b →
        (if 1 < a then (a - 1) * dx.2 / (((sw_xc3 dx).filter fun v => decide (v < dx.2 + 1)).getLastD 0 - 1) + 1 else a) <
        (if 1 < b then (b - 1) * dx.2 / (((sw_xc3 dx).filter fun v => decide (v < dx.2 + 1)).getLastD 0 - 1) + 1 else b) := by
      intro a b hab
      by_cases ha : 1 < a
      · rw [if_pos ha, if_pos (by linarith)]
        rw [mul_div_assoc, mul_div_assoc]
        have : (a - 1) * (dx.2 / (((sw_xc3 dx).filter fun v => decide (v < dx.2 + 1)).getLastD 0 - 1)) <
            (b - 1) * (dx.2 / (((sw_xc3 dx).filter fun v => decide (v < dx.2 + 1)).getLastD 0 - 1)) := by
          apply mul_lt_mul_of_pos_right _ hs
          linarith
        linarith
      · rw [if_neg ha]
        by_cases hb : 1 < b
        · rw [if_pos hb]
          have : 0 < (b - 1) * (dx.2 / (((sw_xc3 dx).filter fun v => decide (v < dx.2 + 1)).getLastD 0 - 1)) := by
            apply mul_pos _ hs
            linarith
          rw [mul_div_assoc]
          push_neg at ha
          linarith
        · rw [if_neg hb]
          exact hab
    have hfgt : ∀ u : ℝ, 1 < u →
        1 < (u - 1) * dx.2 / (((sw_xc3 dx).filter fun v => decide (v < dx.2 + 1)).getLastD 0 - 1) + 1 := by
      intro u hu
      rw [mul_div_assoc]
      have : 0 < (u - 1) * (dx.2 / (((sw_xc3 dx).filter fun v => decide (v < dx.2 + 1)).getLastD 0 - 1)) := by
        apply mul_pos _ hs
        linarith
      linarith
    have hGimp : dx.2 ≤ c97 1 → False := by
      intro hle
      have hGmem := getLastD_mem htne
      have hGfil := List.mem_filter.mp hGmem
      have hGx3 := hGfil.1
      have hGlt : ((sw_xc3 dx).filter fun v => decide (v < dx.2 + 1)).getLastD 0 < dx.2 + 1 := by
        have := hGfil.2
        rwa [decide_eq_true_iff] at this
      have hGmem2 := hclass _ hGx3 hGgt
      have hge := sw_xc2_gt_one _ hGmem2 hGgt
      linarith
    refine ⟨chain'_lt_map hfmono hct, ?_, ?_, fun _ => ?_, fun hle => absurd hle (by intro h; exact hGimp h), ?_⟩
    · rw [countVal_map_of_iff, hcount0t]
      intro u hu
      constructor
      · intro hfu
        by_cases hu1 : 1 < u
        · rw [if_pos hu1] at hfu
          have := hfgt u hu1
          rw [hfu] at this
          linarith
        · rwa [if_neg hu1] at hfu
      · intro hu0
        rw [hu0, if_neg (by norm_num)]
    · rw [countVal_map_of_iff, hcount1t]
      intro u hu
      constructor
      · intro hfu
        by_cases hu1 : 1 < u
        · rw [if_pos hu1] at hfu
          have := hfgt u hu1
          rw [hfu] at this
          linarith
        · rwa [if_neg hu1] at hfu
      · intro hu0
        rw [hu0, if_neg (by norm_num)]
    · rw [List.getLastD_eq_getLast?, List.getLast?_map,
        getLast?_eq_getLastD htne]
      simp only [Option.map_some', Option.getD_some]
      rw [if_pos hGgt, mul_comm, mul_div_assoc, div_self hsne, mul_one]
    · rw [headI_map htne,
        if_neg (show ¬ (1 : ℝ) < ((sw_xc3 dx).filter fun v => decide (v < dx.2 + 1)).headI by
          push_neg; linarith), hheadfil]
  · -- nothing beyond the trailing edge survives: the rescaling is the identity
    have hGeq : ((sw_xc3 dx).filter fun v => decide (v < dx.2 + 1)).getLastD 0 = 1 :=
      le_antisymm (not_lt.mp hGgt) hG1
    have hall : ∀ v ∈ (sw_xc3 dx).filter fun v => decide (v < dx.2 + 1), ¬ 1 < v := by
      intro v hv
      have := sorted_le_getLastD hct hv
      rw [hGeq] at this
      push_neg
      linarith
    have hres : (((sw_xc3 dx).filter fun v => decide (v < dx.2 + 1)).map fun v =>
        if 1 < v then
          (v - 1) * dx.2 / (((sw_xc3 dx).filter fun v => decide (v < dx.2 + 1)).getLastD 0 - 1) + 1
        else v) = (sw_xc3 dx).filter fun v => decide (v < dx.2 + 1) := by
      have hcongr := List.map_congr_left
        (l := (sw_xc3 dx).filter fun v => decide (v < dx.2 + 1))
        (f := fun v =>
          if 1 < v then
            (v - 1) * dx.2 / (((sw_xc3 dx).filter fun v => decide (v < dx.2 + 1)).getLastD 0 - 1) + 1
          else v)
        (g := fun v => v) (fun a ha => if_neg (hall a ha))
      rw [hcongr, List.map_id']
    rw [hres]
    refine ⟨hct, hcount0t, hcount1t, fun hc => ?_, fun _ => hGeq, hheadfil⟩
    exfalso
    have hx3 : 1 + c97 1 ∈ sw_xc3 dx :=
      hmem _ sw_xc2_mem_b3_1 (by linarith [c97_1_pos])
    have hin : 1 + c97 1 ∈ (sw_xc3 dx).filter fun v => decide (v < dx.2 + 1) := by
      refine List.mem_filter.mpr ⟨hx3, ?_⟩
      rw [decide_eq_true_iff]
      linarith
    have := sorted_le_getLastD hct hin
    rw [hGeq] at this
    linarith [c97_1_pos]

lemma sw_xc4_base_facts {dx : ℝ × ℝ} (hd1 : 0 < dx.1) (hd2 : 0 < dx.2) :
    List.Chain' (· < ·) (sw_xc4 dx) ∧
    countVal 0 (sw_xc4 dx) = 1 ∧ countVal 1 (sw_xc4 dx) = 1 := by
  by_cases hbr : 0 < sw_nxd dx
  · have h := sw_xc4_extend_facts hbr hd1
    exact ⟨h.1, h.2.1, h.2.2.1⟩
  · have h := sw_xc4_trunc_facts hbr hd1 hd2
    exact ⟨h.1, h.2.1, h.2.2.1⟩

/-- Claim C5: for every duct-distance pair with both components strictly
positive, the streamwise grid vector returned by `streamwise_grid` is strictly
increasing end to end, in every combination of the extend and truncate
branches on the inlet and outlet sides. -/
theorem streamwise_grid_strictMono (dx_c : ℝ × ℝ) (h1 : 0 < dx_c.1)
    (h2 : 0 < dx_c.2) : List.Chain' (· < ·) (streamwise_grid dx_c).1 :=
  (sw_xc4_base_facts h1 h2).1

/-- Witness for C5 at the concrete duct distances `(1, 1)`. -/
theorem streamwise_grid_strictMono_witness :
    (0 < ((1 : ℝ), (1 : ℝ)).1 ∧ 0 < ((1 : ℝ), (1 : ℝ)).2) ∧
    List.Chain' (· < ·) (streamwise_grid ((1 : ℝ), (1 : ℝ))).1 :=
  ⟨⟨by norm_num, by norm_num⟩,
    streamwise_grid_strictMono ((1 : ℝ), (1 : ℝ)) (by norm_num) (by norm_num)⟩

/-- Claim C1: for every duct-distance pair with both components strictly
positive, the vector returned by `streamwise_grid` contains exactly one entry
equal to `0.0` and exactly one entry equal to `1.0`, and the returned
edge-index pair points to those entries (first index to the `0.0` entry,
second to the `1.0` entry), in both the extend and truncate branch on each
side. -/
theorem streamwise_grid_unique_edges (dx_c : ℝ × ℝ) (h1 : 0 < dx_c.1)
    (h2 : 0 < dx_c.2) :
    countVal 0 (streamwise_grid dx_c).1 = 1 ∧
    countVal 1 (streamwise_grid dx_c).1 = 1 ∧
    (streamwise_grid dx_c).1[(streamwise_grid dx_c).2.1]? = some 0 ∧
    (streamwise_grid dx_c).1[(streamwise_grid dx_c).2.2]? = some 1 := by
  obtain ⟨hch, hc0, hc1⟩ := sw_xc4_base_facts h1 h2
  refine ⟨hc0, hc1, ?_, ?_⟩
  · obtain ⟨a, ha, hpa⟩ := get?_findIdx (p := fun v => decide (v = (0 : ℝ)))
      (l := sw_xc4 dx_c)
      ⟨0, mem_of_countVal_ne_zero (by rw [hc0]; omega), by simp⟩
    rw [decide_eq_true_iff] at hpa
    rw [hpa] at ha
    exact ha
  · obtain ⟨a, ha, hpa⟩ := get?_findIdx (p := fun v => decide (v = (1 : ℝ)))
      (l := sw_xc4 dx_c)
      ⟨1, mem_of_countVal_ne_zero (by rw [hc1]; omega), by simp⟩
    rw [decide_eq_true_iff] at hpa
    rw [hpa] at ha
    exact ha

/-- Witness for C1 at the concrete duct distances `(1, 1)`. -/
theorem streamwise_grid_unique_edges_witness :
    (0 < ((1 : ℝ), (1 : ℝ)).1 ∧ 0 < ((1 : ℝ), (1 : ℝ)).2) ∧
    (countVal 0 (streamwise_grid ((1 : ℝ), (1 : ℝ))).1 = 1 ∧
     countVal 1 (streamwise_grid ((1 : ℝ), (1 : ℝ))).1 = 1 ∧
     (streamwise_grid ((1 : ℝ), (1 : ℝ))).1[(streamwise_grid ((1 : ℝ), (1 : ℝ))).2.1]? = some 0 ∧
     (streamwise_grid ((1 : ℝ), (1 : ℝ))).1[(streamwise_grid ((1 : ℝ), (1 : ℝ))).2.2]? = some 1) :=
  ⟨⟨by norm_num, by norm_num⟩,
    streamwise_grid_unique_edges ((1 : ℝ), (1 : ℝ)) (by norm_num) (by norm_num)⟩

/-- Counterexample to claim C4 as stated: for the strictly positive
duct-distance pair `(1/2, 1/10000)` the outlet truncate branch removes every
entry beyond the trailing edge, so the last entry of the streamwise grid is
`1.0` and not `1 + dx_c[1]`. -/
theorem streamwise_grid_end_values_cex :
    0 < ((1 : ℝ) / 2, (1 : ℝ) / 10000).1 ∧
    0 < ((1 : ℝ) / 2, (1 : ℝ) / 10000).2 ∧
    (streamwise_grid ((1 : ℝ) / 2, (1 : ℝ) / 10000)).1.getLastD 0 ≠
      ((1 : ℝ) / 2, (1 : ℝ) / 10000).2 + 1 := by
  have hbr : ¬ 0 < sw_nxd ((1 : ℝ) / 2, (1 : ℝ) / 10000) := by
    rw [sw_nxd]
    intro hpos
    have h1 := pyint_pos_iff.mp hpos
    have hneg : ((((1 : ℝ) / 2, (1 : ℝ) / 10000).2 - 0.5) / sw_dmax) < 0 :=
      div_neg_of_neg_of_pos (by norm_num) sw_dmax_pos
    linarith
  have h := sw_xc4_trunc_facts hbr (by norm_num) (by norm_num)
  have hle : ((1 : ℝ) / 2, (1 : ℝ) / 10000).2 ≤ c97 1 := le_of_lt c97_1_gt
  have hlast := h.2.2.2.2.1 hle
  refine ⟨by norm_num, by norm_num, ?_⟩
  show (sw_xc4 ((1 : ℝ) / 2, (1 : ℝ) / 10000)).getLastD 0 ≠ _
  rw [hlast]
  norm_num

/-- Claim C4 (amended): the first entry of the streamwise grid equals
`-dx_c[0]` and the last entry equals `1 + dx_c[1]` exactly, provided each
requested duct distance exceeds the smallest clustering cell `clust[1]`
(otherwise the truncate branch deletes every entry beyond that end and leaves
the boundary at the leading/trailing edge), and the outlet extension count
`int((dx_c[1] - 0.5)/dmax)` is not exactly `1` (numpy's `linspace` with a
single sample returns only its start point, so that case leaves the last
entry at `1.5`). -/
theorem streamwise_grid_end_values (dx_c : ℝ × ℝ) (h1 : 0 < dx_c.1)
    (h2 : 0 < dx_c.2) (hc1 : c97 1 < dx_c.1) (hc2 : c97 1 < dx_c.2)
    (hn1 : sw_nxd dx_c ≠ 1) :
    (streamwise_grid dx_c).1.headI = -dx_c.1 ∧
    (streamwise_grid dx_c).1.getLastD 0 = dx_c.2 + 1 := by
  have hx3head := (sw_xc3_facts h1).2.2.2.2.2.2 hc1
  by_cases hbr : 0 < sw_nxd dx_c
  · have h := sw_xc4_extend_facts hbr h1
    have h2n : 2 ≤ (sw_nxd dx_c).toNat := by omega
    constructor
    · show (sw_xc4 dx_c).headI = -dx_c.1
      rw [h.2.2.2.2, hx3head]
    · exact h.2.2.2.1 h2n
  · have h := sw_xc4_trunc_facts hbr h1 h2
    constructor
    · show (sw_xc4 dx_c).headI = -dx_c.1
      rw [h.2.2.2.2.2, hx3head]
    · exact h.2.2.2.1 hc2

/-- Witness for the amended C4 at the concrete duct distances `(1/2, 1/2)`
(both truncate branches). -/
theorem streamwise_grid_end_values_witness :
    (0 < ((1 : ℝ) / 2, (1 : ℝ) / 2).1 ∧ 0 < ((1 : ℝ) / 2, (1 : ℝ) / 2).2 ∧
     c97 1 < ((1 : ℝ) / 2, (1 : ℝ) / 2).1 ∧ c97 1 < ((1 : ℝ) / 2, (1 : ℝ) / 2).2 ∧
     sw_nxd ((1 : ℝ) / 2, (1 : ℝ) / 2) ≠ 1) ∧
    ((streamwise_grid ((1 : ℝ) / 2, (1 : ℝ) / 2)).1.headI = -((1 : ℝ) / 2, (1 : ℝ) / 2).1 ∧
     (streamwise_grid ((1 : ℝ) / 2, (1 : ℝ) / 2)).1.getLastD 0 = ((1 : ℝ) / 2, (1 : ℝ) / 2).2 + 1) := by
  have hA : c97 1 < ((1 : ℝ) / 2, (1 : ℝ) / 2).1 := c97_1_lt_half
  have hB : c97 1 < ((1 : ℝ) / 2, (1 : ℝ) / 2).2 := c97_1_lt_half
  have hnxd : sw_nxd ((1 : ℝ) / 2, (1 : ℝ) / 2) = 0 := by
    rw [sw_nxd]
    have hz : (((1 : ℝ) / 2, (1 : ℝ) / 2).2 - 0.5) = 0 := by norm_num
    rw [hz, zero_div, pyint_zero]
  have hC : sw_nxd ((1 : ℝ) / 2, (1 : ℝ) / 2) ≠ 1 := by
    rw [hnxd]
    omega
  exact ⟨⟨by norm_num, by norm_num, hA, hB, hC⟩,
    streamwise_grid_end_values _ (by norm_num) (by norm_num) hA hB hC⟩

/-- Inputs of `blade_to_blade_mesh`. Arrays are modelled as functions
together with explicit shape data: `x` is the streamwise coordinate vector,
`r` the meridional radius field with `nspan` spanwise stations, `(i0, i1)`
the edge-index pair `ii`, `chi` the metal-angle matrix with `nj` columns,
`nrt` the circumferential point count, `s_c` the pitch-to-chord ratio and
`a` the shape parameter.

`bs` is modelled from the spec: the external blade-section generator
(`blade_section`, an excluded collaborator per spec sections 1 and 6) returns
a 3×M array — streamwise fraction, upper-surface and lower-surface offsets —
and is consumed as an opaque black box, so it enters the embedding as a
function-valued input. -/
structure B2BInput where
  x : List ℝ
  r : ℕ → ℕ → ℝ
  nspan : ℕ
  i0 : ℕ
  i1 : ℕ
  chi : ℕ → ℝ × ℝ
  nj : ℕ
  nrt : ℕ
  s_c : ℝ
  a : ℝ
  bs : (ℝ × ℝ) → ℝ → List ℝ × List ℝ × List ℝ

/-- `len(x)`. -/
def b2b_nx (inp : B2BInput) : ℕ := inp.x.length

/-- Indexing `x[i]`. -/
def b2b_xg (inp : B2BInput) (i : ℕ) : ℝ := inp.x.getD i 0

/-- The circumferential clustering vector
`clust = 0.5 * (1 - np.cos(np.pi * np.linspace(0, 1, nrt)))`. -/
def b2b_clust (inp : B2BInput) : List ℝ :=
  (linspace 0 1 inp.nrt).map fun t => 0.5 * (1 - Real.cos (Real.pi * t))

/-- `xpass = x[ii[0]:ii[1]] - x[ii[0]]`. -/
def b2b_xpass (inp : B2BInput) : List ℝ :=
  ((inp.x.drop inp.i0).take (inp.i1 - inp.i0)).map fun v => v - b2b_xg inp inp.i0

/-- `c = xpass.ptp()` (the axial chord used throughout the routine). -/
def b2b_c (inp : B2BInput) : ℝ := np_ptp (b2b_xpass inp)

/-- `rmid = np.mean(r[ii[0], (0, -1)])`. -/
def b2b_rmid (inp : B2BInput) : ℝ :=
  (inp.r inp.i0 0 + inp.r inp.i0 (inp.nspan - 1)) / 2

/-- `sect_now = blade_section(chi[:, j], a) * c`. -/
def b2b_sect (inp : B2BInput) (j : ℕ) : List ℝ × List ℝ × List ℝ :=
  ((inp.bs (inp.chi j) inp.a).1.map fun v => v * b2b_c inp,
   (inp.bs (inp.chi j) inp.a).2.1.map fun v => v * b2b_c inp,
   (inp.bs (inp.chi j) inp.a).2.2.map fun v => v * b2b_c inp)

/-- `rt0 = np.interp(xpass, sect_now[0], sect_now[1])`. -/
def b2b_rt0 (inp : B2BInput) (i j : ℕ) : ℝ :=
  np_interp ((b2b_xpass inp).getD (i - inp.i0) 0) (b2b_sect inp j).1
    (b2b_sect inp j).2.1

/-- `rt1 = np.interp(xpass, sect_now[0], sect_now[2]) + s_c * c / rmid * rnow`. -/
def b2b_rt1 (inp : B2BInput) (i j : ℕ) : ℝ :=
  np_interp ((b2b_xpass inp).getD (i - inp.i0) 0) (b2b_sect inp j).1
    (b2b_sect inp j).2.2 + inp.s_c * b2b_c inp / b2b_rmid inp * inp.r i j

/-- The passage fill `rt[ii[0]:ii[1], j, :] = rt0 + (rt1 - rt0) * clust3` for
`j < nj`; entries that the loop does not write keep the (NaN) initialisation,
represented by the junk value `0` here and tracked by the `b2b_filled*`
layer below. -/
def b2b_rtA (inp : B2BInput) (i j k : ℕ) : ℝ :=
  if inp.i0 ≤ i ∧ i < inp.i1 ∧ j < inp.nj then
    b2b_rt0 inp i j + (b2b_rt1 inp i j - b2b_rt0 inp i j) *
      (b2b_clust inp).getD k 0
  else 0

/-- Duct propagation `rt[:ii[0]] = rt[ii[0]]; rt[ii[1]:] = rt[ii[1]-1]`. -/
def b2b_rtB (inp : B2BInput) (i j k : ℕ) : ℝ :=
  if i < inp.i0 then b2b_rtA inp inp.i0 j k
  else if inp.i1 ≤ i then b2b_rtA inp (inp.i1 - 1) j k
  else b2b_rtA inp i j k

/-- `unif_rt = np.linspace(0, 1, nrt)`. -/
def b2b_unif (inp : B2BInput) (k : ℕ) : ℝ := (linspace 0 1 inp.nrt).getD k 0

/-- Boundary uniformisation
`rt[(0,-1)] = rt[(0,-1),:,0] + (rt[(0,-1),:,-1] - rt[(0,-1),:,0]) * unif_rt3`. -/
def b2b_rtC (inp : B2BInput) (i j k : ℕ) : ℝ :=
  if i = 0 ∨ i = b2b_nx inp - 1 then
    b2b_rtB inp i j 0 +
      (b2b_rtB inp i j (inp.nrt - 1) - b2b_rtB inp i j 0) * b2b_unif inp k
  else b2b_rtB inp i j k

/-- `icl = np.where(xnow / c > -1.0)[0]` over the upstream rows `[:ii[0]]`. -/
def b2b_icl_up (inp : B2BInput) : List ℕ :=
  (List.range inp.i0).filter fun i =>
    decide ((b2b_xg inp i - b2b_xg inp inp.i0) / b2b_c inp > -1)

/-- The upstream relaxation weights `lin_x_up`. -/
def b2b_lin_up (inp : B2BInput) (i : ℕ) : ℝ :=
  if (b2b_xg inp inp.i0 - b2b_xg inp 0) / b2b_c inp > 1 then
    if i ∈ b2b_icl_up inp then
      (linspace 0 1 (b2b_icl_up inp).length).getD ((b2b_icl_up inp).indexOf i) 0
    else 0
  else (linspace 0 1 inp.i0).getD i 0

/-- `icl = np.where(np.abs((x - x[ii[1]-1]) / c - 0.5) < 0.5)[0]`. -/
def b2b_icl_dn (inp : B2BInput) : List ℕ :=
  (List.range (b2b_nx inp)).filter fun i =>
    decide (|(b2b_xg inp i - b2b_xg inp (inp.i1 - 1)) / b2b_c inp - 0.5| < 0.5)

/-- The downstream relaxation weights `lin_x_dn`; the slice
`lin_x_dn[-(len(x) - ii[1]):]` aligns full-array position `i` with row `i`. -/
def b2b_lin_dn (inp : B2BInput) (i : ℕ) : ℝ :=
  if (b2b_xg inp (b2b_nx inp - 1) - b2b_xg inp (inp.i1 - 1)) / b2b_c inp > 1 then
    if i ∈ b2b_icl_dn inp then
      (linspace 1 0 (b2b_icl_dn inp).length).getD ((b2b_icl_dn inp).indexOf i) 0
    else 0
  else (linspace 1 0 (b2b_nx inp - inp.i1)).getD (i - inp.i1) 0

/-- Upstream relaxation
`rt[:ii[0]] = rt[0] + (rt[ii[0]] - rt[0]) * lin_x_up3`. -/
def b2b_rtD (inp : B2BInput) (i j k : ℕ) : ℝ :=
  if i < inp.i0 then
    b2b_rtC inp 0 j k +
      (b2b_rtC inp inp.i0 j k - b2b_rtC inp 0 j k) * b2b_lin_up inp i
  else b2b_rtC inp i j k

/-- Downstream relaxation
`rt[ii[1]:] = rt[-1] + (rt[ii[1]] - rt[-1]) * lin_x_dn3`. -/
def b2b_rtE (inp : B2BInput) (i j k : ℕ) : ℝ :=
  if inp.i1 ≤ i then
    b2b_rtD inp (b2b_nx inp - 1) j k +
      (b2b_rtD inp inp.i1 j k - b2b_rtD inp (b2b_nx inp - 1) j k) *
        b2b_lin_dn inp i
  else b2b_rtD inp i j k

/-- `blade_to_blade_mesh` from `hmesh.py`: the final circumferential field. -/
def blade_to_blade_mesh (inp : B2BInput) : ℕ → ℕ → ℕ → ℝ := b2b_rtE inp

/-- Definedness layer for the NaN-initialised array
`rt = np.ones(np.shape(r) + (nrt,)) * np.nan`: `b2b_filledA inp i j k` holds
when the passage loop wrote entry `(i, j, k)`; the later stages mirror the
slice assignments, an entry being non-NaN exactly when every entry read by
its defining expression is. -/
def b2b_filledA (inp : B2BInput) (i j : ℕ) : Prop :=
  inp.i0 ≤ i ∧ i < inp.i1 ∧ j < inp.nj

/-- Definedness after the duct propagation step. -/
def b2b_filledB (inp : B2BInput) (i j : ℕ) : Prop :=
  if i < inp.i0 then b2b_filledA inp inp.i0 j
  else if inp.i1 ≤ i then b2b_filledA inp (inp.i1 - 1) j
  else b2b_filledA inp i j

/-- Definedness after the boundary uniformisation step (rows `0` and `-1`
are rebuilt from their own entries at `k = 0` and `k = nrt - 1`). -/
def b2b_filledC (inp : B2BInput) (i j : ℕ) : Prop :=
  if i = 0 ∨ i = b2b_nx inp - 1 then
    b2b_filledB inp i j ∧ b2b_filledB inp i j
  else b2b_filledB inp i j

/-- Definedness after the upstream relaxation. -/
def b2b_filledD (inp : B2BInput) (i j : ℕ) : Prop :=
  if i < inp.i0 then b2b_filledC inp 0 j ∧ b2b_filledC inp inp.i0 j
  else b2b_filledC inp i j

/-- Definedness after the downstream relaxation (the final field). -/
def b2b_filledE (inp : B2BInput) (i j : ℕ) : Prop :=
  if inp.i1 ≤ i then
    b2b_filledD inp (b2b_nx inp - 1) j ∧ b2b_filledD inp inp.i1 j
  else b2b_filledD inp i j

/-- Claim C10 (implicit): the circumferential field array is initialised
entirely to NaN and only stations `j < chi.shape[1]` are filled inside the
passage; when `chi` has one column per spanwise station of `r`
(`nj = nspan`) and the edge indices are strictly inside the domain, the
passage fill, duct propagation, boundary-uniform and relaxation steps
together overwrite every element, so the returned field contains no NaN
entry. -/
theorem blade_to_blade_mesh_no_nan (inp : B2BInput) (hj : inp.nj = inp.nspan)
    (h0 : 0 < inp.i0) (h01 : inp.i0 < inp.i1)
    (h1 : inp.i1 < b2b_nx inp - 1) :
    ∀ i j k, j < inp.nspan → k < inp.nrt → b2b_filledE inp i j := by
  intro i j _ hjs _
  have hjn : j < inp.nj := by omega
  have hA : ∀ i', inp.i0 ≤ i' → i' < inp.i1 → b2b_filledA inp i' j :=
    fun i' hl hr => ⟨hl, hr, hjn⟩
  have hB : ∀ i', b2b_filledB inp i' j := by
    intro i'
    rw [b2b_filledB]
    by_cases hlt : i' < inp.i0
    · rw [if_pos hlt]
      exact hA _ le_rfl h01
    · rw [if_neg hlt]
      by_cases hge : inp.i1 ≤ i'
      · rw [if_pos hge]
        exact hA _ (by omega) (by omega)
      · rw [if_neg hge]
        exact hA _ (by omega) (by omega)
  have hC : ∀ i', b2b_filledC inp i' j := by
    intro i'
    rw [b2b_filledC]
    by_cases hb : i' = 0 ∨ i' = b2b_nx inp - 1
    · rw [if_pos hb]
      exact ⟨hB i', hB i'⟩
    · rw [if_neg hb]
      exact hB i'
  have hD : ∀ i', b2b_filledD inp i' j := by
    intro i'
    rw [b2b_filledD]
    by_cases hlt : i' < inp.i0
    · rw [if_pos hlt]
      exact ⟨hC 0, hC inp.i0⟩
    · rw [if_neg hlt]
      exact hC i'
  rw [b2b_filledE]
  by_cases hge : inp.i1 ≤ i
  · rw [if_pos hge]
    exact ⟨hD _, hD _⟩
  · rw [if_neg hge]
    exact hD i

/-- A small concrete instance of the blade-to-blade inputs, used as a
witness/counterexample carrier: `x = [0, 1, 3, 4, 5]`, `ii = (1, 3)`,
constant unit radius, one spanwise station, `nrt = 2`, unit pitch-to-chord,
and a degenerate (flat) external blade section. -/
def cexInput : B2BInput where
  x := [0, 1, 3, 4, 5]
  r := fun _ _ => 1
  nspan := 1
  i0 := 1
  i1 := 3
  chi := fun _ => (0, 0)
  nj := 1
  nrt := 2
  s_c := 1
  a := 0
  bs := fun _ _ => ([0, 1], [0, 0], [0, 0])

/-- Witness for C10 at the concrete instance `cexInput`. -/
theorem blade_to_blade_mesh_no_nan_witness :
    (cexInput.nj = cexInput.nspan ∧ 0 < cexInput.i0 ∧
     cexInput.i0 < cexInput.i1 ∧ cexInput.i1 < b2b_nx cexInput - 1) ∧
    (∀ i j k, j < cexInput.nspan → k < cexInput.nrt → b2b_filledE cexInput i j) := by
  have hnx : b2b_nx cexInput = 5 := by
    rw [b2b_nx]
    rfl
  refine ⟨⟨rfl, ?_, ?_, ?_⟩, ?_⟩
  · norm_num [cexInput]
  · norm_num [cexInput]
  · rw [hnx]
    norm_num [cexInput]
  · exact blade_to_blade_mesh_no_nan cexInput rfl (by norm_num [cexInput])
      (by norm_num [cexInput]) (by rw [hnx]; norm_num [cexInput])

lemma foldr_min_le_init (c : ℝ) (l : List ℝ) : l.foldr min c ≤ c := by
  induction l with
  | nil => simp
  | cons b t ih => exact le_trans (min_le_right _ _) ih

lemma npmax_sorted {l : List ℝ} (hs : List.Chain' (· < ·) l) (hne : l ≠ []) :
    npmax l = l.getLastD 0 := by
  refine le_antisymm ?_ (le_foldr_max (getLastD_mem hne))
  exact foldr_max_le (sorted_headI_le hs (getLastD_mem hne))
    fun a ha => sorted_le_getLastD hs ha

lemma npmin_sorted {l : List ℝ} (hs : List.Chain' (· < ·) l) (hne : l ≠ []) :
    npmin l = l.headI := by
  refine le_antisymm (foldr_min_le (headI_mem hne)) ?_
  exact le_foldr_min le_rfl fun a ha => sorted_headI_le hs ha

lemma np_ptp_sorted {l : List ℝ} (hs : List.Chain' (· < ·) l) (hne : l ≠ []) :
    np_ptp l = l.getLastD 0 - l.headI := by
  rw [np_ptp, npmax_sorted hs hne, npmin_sorted hs hne]

lemma headI_eq_getD {l : List ℝ} (h : l ≠ []) : l.headI = l.getD 0 0 := by
  cases l with
  | nil => exact absurd rfl h
  | cons a t => simp

lemma getLastD_eq_getD {l : List ℝ} (h : l ≠ []) :
    l.getLastD 0 = l.getD (l.length - 1) 0 := by
  rw [List.getLastD_eq_getLast?, List.getLast?_eq_getLast l h,
    List.getLast_eq_getElem, Option.getD_some,
    List.getD_eq_getElem _ _ (by
      cases l with
      | nil => exact absurd rfl h
      | cons a t => simp)]

/-- Counterexample to claim C3 as stated: for the monotone meridional grid
`x = [0, 1, 3, 4, 5]` with edge indices `(1, 3)` the chord computed by
`blade_to_blade_mesh` is `np.ptp(x[1:3] - x[1]) = 2`, not
`x[ii[1]] - x[ii[0]] = 3` (the Python slice excludes index `ii[1]`). -/
theorem blade_chord_cex :
    0 < cexInput.i0 ∧ cexInput.i0 < cexInput.i1 ∧
    cexInput.i1 < cexInput.x.length - 1 ∧
    b2b_c cexInput ≠ b2b_xg cexInput cexInput.i1 - b2b_xg cexInput cexInput.i0 := by
  have hxp : b2b_xpass cexInput = [0, 2] := by
    rw [b2b_xpass]
    norm_num [cexInput, b2b_xg, List.getD_cons_zero, List.getD_cons_succ]
  have hc : b2b_c cexInput = 2 := by
    rw [b2b_c, hxp, np_ptp, npmax, npmin]
    norm_num [List.foldr, max_def, min_def]
  refine ⟨by norm_num [cexInput], by norm_num [cexInput], by norm_num [cexInput], ?_⟩
  rw [hc]
  norm_num [cexInput, b2b_xg, List.getD_cons_zero, List.getD_cons_succ]

/-- Claim C3 (amended): for every strictly increasing meridional grid `x` and
edge indices `ii` with `ii[0] < ii[1] ≤ len(x)`, the blade axial chord used
by `blade_to_blade_mesh` for scaling, pitch and relaxation equals
`x[ii[1] - 1] - x[ii[0]]` (the axial extent of the passage slice
`x[ii[0]:ii[1]]`, whose last station is `ii[1] - 1`). -/
theorem blade_chord (inp : B2BInput) (hmono : List.Chain' (· < ·) inp.x)
    (h01 : inp.i0 < inp.i1) (h1 : inp.i1 ≤ inp.x.length) :
    b2b_c inp = b2b_xg inp (inp.i1 - 1) - b2b_xg inp inp.i0 := by
  have hTlen : ((inp.x.drop inp.i0).take (inp.i1 - inp.i0)).length =
      inp.i1 - inp.i0 := by
    rw [List.length_take, List.length_drop]
    omega
  have hTne : (inp.x.drop inp.i0).take (inp.i1 - inp.i0) ≠ [] := by
    intro h
    rw [h] at hTlen
    simp at hTlen
    omega
  have hTsub : (inp.x.drop inp.i0).take (inp.i1 - inp.i0) <+ inp.x :=
    (List.take_sublist _ _).trans (List.drop_sublist _ _)
  have hTchain : List.Chain' (· < ·) ((inp.x.drop inp.i0).take (inp.i1 - inp.i0)) := by
    rw [List.chain'_iff_pairwise] at hmono ⊢
    exact List.Pairwise.sublist hTsub hmono
  have hTget : ∀ m, m < inp.i1 - inp.i0 →
      ((inp.x.drop inp.i0).take (inp.i1 - inp.i0)).getD m 0 =
        inp.x.getD (inp.i0 + m) 0 := by
    intro m hm
    have hmlen : m < ((inp.x.drop inp.i0).take (inp.i1 - inp.i0)).length := by
      rw [hTlen]
      exact hm
    have hxlen : inp.i0 + m < inp.x.length := by omega
    rw [List.getD_eq_getElem _ _ hmlen, List.getD_eq_getElem _ _ hxlen]
    rw [List.getElem_take, List.getElem_drop]
  have hchain' : List.Chain' (· < ·) (b2b_xpass inp) := by
    rw [b2b_xpass]
    apply chain'_lt_map _ hTchain
    intro a b hab
    linarith
  have hne' : b2b_xpass inp ≠ [] := by
    rw [b2b_xpass]
    intro h
    rw [List.map_eq_nil] at h
    exact hTne h
  rw [b2b_c, np_ptp_sorted hchain' hne']
  have hhead : (b2b_xpass inp).headI = 0 := by
    rw [b2b_xpass, headI_map hTne, headI_eq_getD hTne,
      hTget 0 (by omega)]
    rw [Nat.add_zero, b2b_xg]
    ring
  have hlastT : ((inp.x.drop inp.i0).take (inp.i1 - inp.i0)).getLastD 0 =
      inp.x.getD (inp.i1 - 1) 0 := by
    rw [getLastD_eq_getD hTne, hTlen, hTget (inp.i1 - inp.i0 - 1) (by omega)]
    congr 1
    omega
  have hlast : (b2b_xpass inp).getLastD 0 =
      inp.x.getD (inp.i1 - 1) 0 - b2b_xg inp inp.i0 := by
    rw [b2b_xpass, List.getLastD_eq_getLast?, List.getLast?_map,
      getLast?_eq_getLastD hTne]
    simp only [Option.map_some', Option.getD_some]
    rw [hlastT]
  rw [hhead, hlast]
  simp only [b2b_xg]
  ring

/-- Witness for the amended C3 at the concrete instance `cexInput`. -/
theorem blade_chord_witness :
    (List.Chain' (· < ·) cexInput.x ∧ cexInput.i0 < cexInput.i1 ∧
     cexInput.i1 ≤ cexInput.x.length) ∧
    b2b_c cexInput = b2b_xg cexInput (cexInput.i1 - 1) - b2b_xg cexInput cexInput.i0 := by
  have hmono : List.Chain' (· < ·) cexInput.x := by
    norm_num [cexInput, List.chain'_cons]
  exact ⟨⟨hmono, by norm_num [cexInput], by norm_num [cexInput]⟩,
    blade_chord cexInput hmono (by norm_num [cexInput]) (by norm_num [cexInput])⟩

lemma b2b_lin_up_zero (inp : B2BInput) (h0 : 0 < inp.i0) :
    b2b_lin_up inp 0 = 0 := by
  rw [b2b_lin_up]
  by_cases hbr : (b2b_xg inp inp.i0 - b2b_xg inp 0) / b2b_c inp > 1
  · rw [if_pos hbr]
    have hnm : 0 ∉ b2b_icl_up inp := by
      intro hmem
      have hcond := (List.mem_filter.mp hmem).2
      rw [decide_eq_true_iff] at hcond
      have hflip : (b2b_xg inp 0 - b2b_xg inp inp.i0) / b2b_c inp =
          -((b2b_xg inp inp.i0 - b2b_xg inp 0) / b2b_c inp) := by
        rw [← neg_div, neg_sub]
      rw [hflip] at hcond
      linarith
    rw [if_neg hnm]
  · rw [if_neg hbr, linspace_getD h0]
    norm_num

lemma b2b_lin_dn_last (inp : B2BInput) (h01 : inp.i0 < inp.i1)
    (h1 : inp.i1 ≤ b2b_nx inp - 2) (hnx : 2 ≤ b2b_nx inp) :
    b2b_lin_dn inp (b2b_nx inp - 1) = 0 := by
  rw [b2b_lin_dn]
  by_cases hbr : (b2b_xg inp (b2b_nx inp - 1) - b2b_xg inp (inp.i1 - 1)) / b2b_c inp > 1
  · rw [if_pos hbr]
    have hnm : b2b_nx inp - 1 ∉ b2b_icl_dn inp := by
      intro hmem
      have hcond := (List.mem_filter.mp hmem).2
      rw [decide_eq_true_iff, abs_lt] at hcond
      linarith [hcond.2]
    rw [if_neg hnm]
  · rw [if_neg hbr]
    have hidx : b2b_nx inp - 1 - inp.i1 = b2b_nx inp - inp.i1 - 1 := by omega
    rw [hidx, linspace_getD (show b2b_nx inp - inp.i1 - 1 < b2b_nx inp - inp.i1 by omega)]
    have hcast : ((b2b_nx inp - inp.i1 - 1 : ℕ) : ℝ) ≠ 0 := by
      have : 1 ≤ b2b_nx inp - inp.i1 - 1 := by omega
      have h2 : (1 : ℝ) ≤ ((b2b_nx inp - inp.i1 - 1 : ℕ) : ℝ) := by exact_mod_cast this
      linarith
    field_simp

lemma b2b_unif_eq {inp : B2BInput} {k : ℕ} (hk : k < inp.nrt) :
    b2b_unif inp k = (k : ℝ) / ((inp.nrt - 1 : ℕ) : ℝ) := by
  rw [b2b_unif, linspace_getD hk]
  ring

/-- Claim C7: for every valid input with edge indices strictly inside the
domain, at the absolute first and last streamwise indices the circumferential
field returned by `blade_to_blade_mesh` is exactly a uniform distribution
between its endpoint values — an arithmetic progression in the
circumferential index for every spanwise station — and the final relaxation
steps leave these two boundary planes unchanged (equal to the field as it
stood after the boundary-uniformisation stage `b2b_rtC`). -/
theorem b2b_boundary_uniform (inp : B2BInput)
    (h0 : 1 ≤ inp.i0) (h01 : inp.i0 < inp.i1) (h1 : inp.i1 ≤ b2b_nx inp - 2)
    (hnx : 2 ≤ b2b_nx inp) (hnrt : 2 ≤ inp.nrt) :
    ∀ j k, k < inp.nrt →
      blade_to_blade_mesh inp 0 j k = b2b_rtC inp 0 j k ∧
      blade_to_blade_mesh inp (b2b_nx inp - 1) j k =
        b2b_rtC inp (b2b_nx inp - 1) j k ∧
      blade_to_blade_mesh inp 0 j k =
        blade_to_blade_mesh inp 0 j 0 +
          (blade_to_blade_mesh inp 0 j (inp.nrt - 1) -
            blade_to_blade_mesh inp 0 j 0) *
            ((k : ℝ) / ((inp.nrt - 1 : ℕ) : ℝ)) ∧
      blade_to_blade_mesh inp (b2b_nx inp - 1) j k =
        blade_to_blade_mesh inp (b2b_nx inp - 1) j 0 +
          (blade_to_blade_mesh inp (b2b_nx inp - 1) j (inp.nrt - 1) -
            blade_to_blade_mesh inp (b2b_nx inp - 1) j 0) *
            ((k : ℝ) / ((inp.nrt - 1 : ℕ) : ℝ)) := by
  intro j k hk
  have hDeq : ∀ i' k', ¬ i' < inp.i0 → b2b_rtD inp i' j k' = b2b_rtC inp i' j k' :=
    fun i' k' h => by rw [b2b_rtD, if_neg h]
  have hE0 : ∀ k', blade_to_blade_mesh inp 0 j k' = b2b_rtC inp 0 j k' := by
    intro k'
    show b2b_rtE inp 0 j k' = _
    rw [b2b_rtE, if_neg (by omega : ¬ inp.i1 ≤ 0), b2b_rtD,
      if_pos (by omega : 0 < inp.i0), b2b_lin_up_zero inp (by omega)]
    ring
  have hEN : ∀ k', blade_to_blade_mesh inp (b2b_nx inp - 1) j k' =
      b2b_rtC inp (b2b_nx inp - 1) j k' := by
    intro k'
    show b2b_rtE inp (b2b_nx inp - 1) j k' = _
    rw [b2b_rtE, if_pos (by omega : inp.i1 ≤ b2b_nx inp - 1),
      b2b_lin_dn_last inp h01 h1 hnx,
      hDeq (b2b_nx inp - 1) k' (by omega)]
    ring
  have hcast1 : ((inp.nrt - 1 : ℕ) : ℝ) ≠ 0 := by
    have : 1 ≤ inp.nrt - 1 := by omega
    have h2 : (1 : ℝ) ≤ ((inp.nrt - 1 : ℕ) : ℝ) := by exact_mod_cast this
    linarith
  have hu0 : b2b_unif inp 0 = 0 := by
    rw [b2b_unif_eq (by omega : 0 < inp.nrt)]
    simp
  have hu1 : b2b_unif inp (inp.nrt - 1) = 1 := by
    rw [b2b_unif_eq (by omega : inp.nrt - 1 < inp.nrt)]
    exact div_self hcast1
  have hC0 : ∀ k', k' < inp.nrt → b2b_rtC inp 0 j k' =
      b2b_rtB inp 0 j 0 +
        (b2b_rtB inp 0 j (inp.nrt - 1) - b2b_rtB inp 0 j 0) *
          ((k' : ℝ) / ((inp.nrt - 1 : ℕ) : ℝ)) := by
    intro k' hk'
    rw [b2b_rtC, if_pos (Or.inl rfl), b2b_unif_eq hk']
  have hCN : ∀ k', k' < inp.nrt → b2b_rtC inp (b2b_nx inp - 1) j k' =
      b2b_rtB inp (b2b_nx inp - 1) j 0 +
        (b2b_rtB inp (b2b_nx inp - 1) j (inp.nrt - 1) -
          b2b_rtB inp (b2b_nx inp - 1) j 0) *
          ((k' : ℝ) / ((inp.nrt - 1 : ℕ) : ℝ)) := by
    intro k' hk'
    rw [b2b_rtC, if_pos (Or.inr rfl), b2b_unif_eq hk']
  refine ⟨hE0 k, hEN k, ?_, ?_⟩
  · rw [hE0 k, hE0 0, hE0 (inp.nrt - 1), hC0 k hk, hC0 0 (by omega),
      hC0 (inp.nrt - 1) (by omega)]
    rw [Nat.cast_zero, zero_div]
    have hone : ((inp.nrt - 1 : ℕ) : ℝ) / ((inp.nrt - 1 : ℕ) : ℝ) = 1 :=
      div_self hcast1
    rw [hone]
    ring
  · rw [hEN k, hEN 0, hEN (inp.nrt - 1), hCN k hk, hCN 0 (by omega),
      hCN (inp.nrt - 1) (by omega)]
    rw [Nat.cast_zero, zero_div]
    have hone : ((inp.nrt - 1 : ℕ) : ℝ) / ((inp.nrt - 1 : ℕ) : ℝ) = 1 :=
      div_self hcast1
    rw [hone]
    ring

/-- Witness for C7 at the concrete instance `cexInput`. -/
theorem b2b_boundary_uniform_witness :
    (1 ≤ cexInput.i0 ∧ cexInput.i0 < cexInput.i1 ∧
     cexInput.i1 ≤ b2b_nx cexInput - 2 ∧ 2 ≤ b2b_nx cexInput ∧
     2 ≤ cexInput.nrt) ∧
    (∀ j k, k < cexInput.nrt →
      blade_to_blade_mesh cexInput 0 j k = b2b_rtC cexInput 0 j k ∧
      blade_to_blade_mesh cexInput (b2b_nx cexInput - 1) j k =
        b2b_rtC cexInput (b2b_nx cexInput - 1) j k ∧
      blade_to_blade_mesh cexInput 0 j k =
        blade_to_blade_mesh cexInput 0 j 0 +
          (blade_to_blade_mesh cexInput 0 j (cexInput.nrt - 1) -
            blade_to_blade_mesh cexInput 0 j 0) *
            ((k : ℝ) / ((cexInput.nrt - 1 : ℕ) : ℝ)) ∧
      blade_to_blade_mesh cexInput (b2b_nx cexInput - 1) j k =
        blade_to_blade_mesh cexInput (b2b_nx cexInput - 1) j 0 +
          (blade_to_blade_mesh cexInput (b2b_nx cexInput - 1) j (cexInput.nrt - 1) -
            blade_to_blade_mesh cexInput (b2b_nx cexInput - 1) j 0) *
            ((k : ℝ) / ((cexInput.nrt - 1 : ℕ) : ℝ))) := by
  have hnx : b2b_nx cexInput = 5 := by
    rw [b2b_nx]
    rfl
  refine ⟨⟨by norm_num [cexInput], by norm_num [cexInput], ?_, ?_, by norm_num [cexInput]⟩, ?_⟩
  · rw [hnx]
    norm_num [cexInput]
  · rw [hnx]
    norm_num
  · exact b2b_boundary_uniform cexInput (by norm_num [cexInput])
      (by norm_num [cexInput]) (by rw [hnx]; norm_num [cexInput])
      (by rw [hnx]; norm_num) (by norm_num [cexInput])

/-- Claim C8: the two-branch relaxation policy of `blade_to_blade_mesh`.
If the upstream duct is longer than one chord, the linear relaxation acts
only within the final chord adjacent to the leading edge and every station
farther than one chord upstream keeps the uniform boundary value (it equals
the final field at streamwise index 0); if the upstream duct is shorter than
one chord, the linear relaxation spans the entire upstream duct with weight
`i / (ii[0] - 1)`.  The same two-branch policy is mirrored on the downstream
side relative to the trailing edge station `ii[1] - 1`. -/
theorem b2b_relax_policy (inp : B2BInput) (h01 : inp.i0 < inp.i1)
    (h1 : inp.i1 + 2 ≤ b2b_nx inp) :
    ((b2b_xg inp inp.i0 - b2b_xg inp 0) / b2b_c inp > 1 →
      ∀ i j k, i < inp.i0 → (b2b_xg inp inp.i0 - b2b_xg inp i) / b2b_c inp ≥ 1 →
        blade_to_blade_mesh inp i j k = blade_to_blade_mesh inp 0 j k) ∧
    (¬ ((b2b_xg inp inp.i0 - b2b_xg inp 0) / b2b_c inp > 1) →
      ∀ i j k, i < inp.i0 →
        blade_to_blade_mesh inp i j k =
          b2b_rtC inp 0 j k + (b2b_rtC inp inp.i0 j k - b2b_rtC inp 0 j k) *
            ((i : ℝ) / ((inp.i0 - 1 : ℕ) : ℝ))) ∧
    ((b2b_xg inp (b2b_nx inp - 1) - b2b_xg inp (inp.i1 - 1)) / b2b_c inp > 1 →
      ∀ i j k, inp.i1 ≤ i →
        (b2b_xg inp i - b2b_xg inp (inp.i1 - 1)) / b2b_c inp ≥ 1 →
        blade_to_blade_mesh inp i j k =
          blade_to_blade_mesh inp (b2b_nx inp - 1) j k) ∧
    (¬ ((b2b_xg inp (b2b_nx inp - 1) - b2b_xg inp (inp.i1 - 1)) / b2b_c inp > 1) →
      ∀ i j k, inp.i1 ≤ i →
        blade_to_blade_mesh inp i j k =
          b2b_rtD inp (b2b_nx inp - 1) j k +
            (b2b_rtD inp inp.i1 j k - b2b_rtD inp (b2b_nx inp - 1) j k) *
              (((b2b_nx inp - 1 - i : ℕ) : ℝ) /
                ((b2b_nx inp - inp.i1 - 1 : ℕ) : ℝ))) := by
  refine ⟨?_, ?_, ?_, ?_⟩
  · intro hbr i j k hi hfar
    have hw : b2b_lin_up inp i = 0 := by
      rw [b2b_lin_up, if_pos hbr]
      have hnm : i ∉ b2b_icl_up inp := by
        intro hmem
        have hcond := (List.mem_filter.mp hmem).2
        rw [decide_eq_true_iff] at hcond
        have hflip : (b2b_xg inp i - b2b_xg inp inp.i0) / b2b_c inp =
            -((b2b_xg inp inp.i0 - b2b_xg inp i) / b2b_c inp) := by
          rw [← neg_div, neg_sub]
        rw [hflip] at hcond
        linarith
      rw [if_neg hnm]
    show b2b_rtE inp i j k = b2b_rtE inp 0 j k
    rw [b2b_rtE, if_neg (by omega : ¬ inp.i1 ≤ i), b2b_rtD,
      if_pos (by omega : i < inp.i0), hw,
      b2b_rtE, if_neg (by omega : ¬ inp.i1 ≤ 0), b2b_rtD,
      if_pos (by omega : 0 < inp.i0), b2b_lin_up_zero inp (by omega)]
  · intro hbr i j k hi
    have hw : b2b_lin_up inp i = (i : ℝ) / ((inp.i0 - 1 : ℕ) : ℝ) := by
      rw [b2b_lin_up, if_neg hbr, linspace_getD hi]
      ring
    show b2b_rtE inp i j k = _
    rw [b2b_rtE, if_neg (by omega : ¬ inp.i1 ≤ i), b2b_rtD,
      if_pos (by omega : i < inp.i0), hw]
  · intro hbr i j k hi hfar
    have hw : b2b_lin_dn inp i = 0 := by
      rw [b2b_lin_dn, if_pos hbr]
      have hnm : i ∉ b2b_icl_dn inp := by
        intro hmem
        have hcond := (List.mem_filter.mp hmem).2
        rw [decide_eq_true_iff, abs_lt] at hcond
        linarith [hcond.2]
      rw [if_neg hnm]
    have hwN : b2b_lin_dn inp (b2b_nx inp - 1) = 0 := by
      rw [b2b_lin_dn, if_pos hbr]
      have hnm : b2b_nx inp - 1 ∉ b2b_icl_dn inp := by
        intro hmem
        have hcond := (List.mem_filter.mp hmem).2
        rw [decide_eq_true_iff, abs_lt] at hcond
        linarith [hcond.2]
      rw [if_neg hnm]
    show b2b_rtE inp i j k = b2b_rtE inp (b2b_nx inp - 1) j k
    rw [b2b_rtE, if_pos hi, hw, b2b_rtE,
      if_pos (by omega : inp.i1 ≤ b2b_nx inp - 1), hwN]
  · intro hbr i j k hi
    have hw : b2b_lin_dn inp i =
        ((b2b_nx inp - 1 - i : ℕ) : ℝ) / ((b2b_nx inp - inp.i1 - 1 : ℕ) : ℝ) := by
      rw [b2b_lin_dn, if_neg hbr]
      by_cases hin : i ≤ b2b_nx inp - 1
      · rw [linspace_getD (show i - inp.i1 < b2b_nx inp - inp.i1 by omega)]
        have hsum : (i - inp.i1) + (b2b_nx inp - 1 - i) = b2b_nx inp - inp.i1 - 1 := by
          omega
        have hsumr : ((i - inp.i1 : ℕ) : ℝ) + ((b2b_nx inp - 1 - i : ℕ) : ℝ) =
            ((b2b_nx inp - inp.i1 - 1 : ℕ) : ℝ) := by
          exact_mod_cast congrArg (fun n : ℕ => (n : ℝ)) hsum
        have hcast : ((b2b_nx inp - inp.i1 - 1 : ℕ) : ℝ) ≠ 0 := by
          have : 1 ≤ b2b_nx inp - inp.i1 - 1 := by omega
          have h2 : (1 : ℝ) ≤ ((b2b_nx inp - inp.i1 - 1 : ℕ) : ℝ) := by
            exact_mod_cast this
          linarith
        have hA : ((i - inp.i1 : ℕ) : ℝ) =
            ((b2b_nx inp - inp.i1 - 1 : ℕ) : ℝ) - ((b2b_nx inp - 1 - i : ℕ) : ℝ) := by
          linarith
        rw [hA, mul_div_assoc, sub_div, div_self hcast]
        ring
      · rw [List.getD_eq_default _ _ (by rw [linspace_length]; omega)]
        have hz : b2b_nx inp - 1 - i = 0 := by omega
        rw [hz]
        simp
    show b2b_rtE inp i j k = _
    rw [b2b_rtE, if_pos hi, hw]

/-- Witness for C8 at the concrete instance `cexInput`. -/
theorem b2b_relax_policy_witness :
    (cexInput.i0 < cexInput.i1 ∧ cexInput.i1 + 2 ≤ b2b_nx cexInput) ∧
    (((b2b_xg cexInput cexInput.i0 - b2b_xg cexInput 0) / b2b_c cexInput > 1 →
      ∀ i j k, i < cexInput.i0 →
        (b2b_xg cexInput cexInput.i0 - b2b_xg cexInput i) / b2b_c cexInput ≥ 1 →
        blade_to_blade_mesh cexInput i j k = blade_to_blade_mesh cexInput 0 j k) ∧
    (¬ ((b2b_xg cexInput cexInput.i0 - b2b_xg cexInput 0) / b2b_c cexInput > 1) →
      ∀ i j k, i < cexInput.i0 →
        blade_to_blade_mesh cexInput i j k =
          b2b_rtC cexInput 0 j k +
            (b2b_rtC cexInput cexInput.i0 j k - b2b_rtC cexInput 0 j k) *
              ((i : ℝ) / ((cexInput.i0 - 1 : ℕ) : ℝ))) ∧
    ((b2b_xg cexInput (b2b_nx cexInput - 1) - b2b_xg cexInput (cexInput.i1 - 1)) / b2b_c cexInput > 1 →
      ∀ i j k, cexInput.i1 ≤ i →
        (b2b_xg cexInput i - b2b_xg cexInput (cexInput.i1 - 1)) / b2b_c cexInput ≥ 1 →
        blade_to_blade_mesh cexInput i j k =
          blade_to_blade_mesh cexInput (b2b_nx cexInput - 1) j k) ∧
    (¬ ((b2b_xg cexInput (b2b_nx cexInput - 1) - b2b_xg cexInput (cexInput.i1 - 1)) / b2b_c cexInput > 1) →
      ∀ i j k, cexInput.i1 ≤ i →
        blade_to_blade_mesh cexInput i j k =
          b2b_rtD cexInput (b2b_nx cexInput - 1) j k +
            (b2b_rtD cexInput cexInput.i1 j k -
              b2b_rtD cexInput (b2b_nx cexInput - 1) j k) *
              (((b2b_nx cexInput - 1 - i : ℕ) : ℝ) /
                ((b2b_nx cexInput - cexInput.i1 - 1 : ℕ) : ℝ)))) := by
  have hnx : b2b_nx cexInput = 5 := by
    rw [b2b_nx]
    rfl
  exact ⟨⟨by norm_num [cexInput], by rw [hnx]; norm_num [cexInput]⟩,
    b2b_relax_policy cexInput (by norm_num [cexInput])
      (by rw [hnx]; norm_num [cexInput])⟩

lemma sorted_getD_lt {l : List ℝ} (hs : List.Chain' (· < ·) l) {i j : ℕ}
    (hij : i < j) (hj : j < l.length) : l.getD i 0 < l.getD j 0 := by
  have hi : i < l.length := lt_trans hij hj
  rw [List.getD_eq_getElem _ _ hi, List.getD_eq_getElem _ _ hj]
  have hpw := List.chain'_iff_pairwise.mp hs
  have := List.pairwise_iff_get.mp hpw ⟨i, hi⟩ ⟨j, hj⟩ hij
  simpa using this

lemma sorted_getD_le {l : List ℝ} (hs : List.Chain' (· < ·) l) {i j : ℕ}
    (hij : i ≤ j) (hj : j < l.length) : l.getD i 0 ≤ l.getD j 0 := by
  rcases eq_or_lt_of_le hij with rfl | h
  · exact le_rfl
  · exact (sorted_getD_lt hs h hj).le

lemma indexOf_concat_self {a : ℕ} {A : List ℕ} (h : a ∉ A) :
    (A ++ [a]).indexOf a = A.length := by
  induction A with
  | nil => simp
  | cons b t ih =>
    have hba : b ≠ a := fun hba => h (hba ▸ List.mem_cons_self b t)
    have hat : a ∉ t := fun hm => h (List.mem_cons_of_mem b hm)
    rw [List.cons_append, List.indexOf_cons_ne _ hba, ih hat, List.length_cons]

lemma b2b_lin_up_edge_long (inp : B2BInput) (hmono : List.Chain' (· < ·) inp.x)
    (hc : 0 < b2b_c inp) (h0 : 2 ≤ inp.i0) (hlen : inp.i0 < inp.x.length)
    (hbr : (b2b_xg inp inp.i0 - b2b_xg inp 0) / b2b_c inp > 1)
    (hup2 : b2b_xg inp inp.i0 - b2b_xg inp (inp.i0 - 2) < b2b_c inp) :
    b2b_lin_up inp (inp.i0 - 1) = 1 := by
  have hP : ∀ m : ℕ, m ≤ inp.i0 - 1 → inp.i0 - 2 ≤ m →
      ((b2b_xg inp m - b2b_xg inp inp.i0) / b2b_c inp > -1) := by
    intro m hm1 hm2
    have hxm : inp.x.getD (inp.i0 - 2) 0 ≤ inp.x.getD m 0 :=
      sorted_getD_le hmono hm2 (by omega)
    rw [gt_iff_lt, lt_div_iff hc]
    simp only [b2b_xg] at hup2 ⊢
    linarith
  have hdecomp : b2b_icl_up inp =
      ((List.range (inp.i0 - 1)).filter fun i =>
        decide ((b2b_xg inp i - b2b_xg inp inp.i0) / b2b_c inp > -1)) ++
        [inp.i0 - 1] := by
    rw [b2b_icl_up]
    have hr : List.range inp.i0 = List.range (inp.i0 - 1) ++ [inp.i0 - 1] := by
      conv_lhs => rw [show inp.i0 = inp.i0 - 1 + 1 from by omega]
      exact List.range_succ _
    rw [hr, List.filter_append]
    congr 1
    rw [List.filter_cons, if_pos (decide_eq_true (hP _ le_rfl (by omega))),
      List.filter_nil]
  set A := (List.range (inp.i0 - 1)).filter (fun i =>
    decide ((b2b_xg inp i - b2b_xg inp inp.i0) / b2b_c inp > -1)) with hA
  have hnotmem : inp.i0 - 1 ∉ A := by
    intro hm
    rw [hA] at hm
    have := List.mem_range.mp (List.mem_of_mem_filter hm)
    omega
  have hA2 : inp.i0 - 2 ∈ A := by
    rw [hA, List.mem_filter]
    exact ⟨List.mem_range.mpr (by omega),
      decide_eq_true (hP _ (by omega) le_rfl)⟩
  have hlenA : 0 < A.length := List.length_pos.mpr (List.ne_nil_of_mem hA2)
  have hmem : inp.i0 - 1 ∈ b2b_icl_up inp := by
    rw [hdecomp]
    exact List.mem_append_right _ (List.mem_singleton.mpr rfl)
  rw [b2b_lin_up, if_pos hbr, if_pos hmem, hdecomp,
    indexOf_concat_self hnotmem, List.length_append, List.length_singleton,
    linspace_getD (Nat.lt_succ_self _)]
  have hcast : ((A.length : ℕ) : ℝ) ≠ 0 := Nat.cast_ne_zero.mpr hlenA.ne'
  rw [Nat.succ_sub_one, zero_add, sub_zero, one_mul]
  exact div_self hcast

lemma b2b_lin_dn_edge_long (inp : B2BInput) (hmono : List.Chain' (· < ·) inp.x)
    (hc : 0 < b2b_c inp) (h1a : 1 ≤ inp.i1) (h1b : inp.i1 < inp.x.length)
    (hbr : (b2b_xg inp (b2b_nx inp - 1) - b2b_xg inp (inp.i1 - 1)) / b2b_c inp > 1)
    (hdn1 : b2b_xg inp inp.i1 - b2b_xg inp (inp.i1 - 1) < b2b_c inp) :
    b2b_lin_dn inp inp.i1 = 1 := by
  have hQi1 : |(b2b_xg inp inp.i1 - b2b_xg inp (inp.i1 - 1)) / b2b_c inp - 0.5| <
      0.5 := by
    have hpos : inp.x.getD (inp.i1 - 1) 0 < inp.x.getD inp.i1 0 :=
      sorted_getD_lt hmono (by omega) h1b
    have hq1 : (b2b_xg inp inp.i1 - b2b_xg inp (inp.i1 - 1)) / b2b_c inp < 1 :=
      (div_lt_one hc).mpr hdn1
    have hq0 : 0 < (b2b_xg inp inp.i1 - b2b_xg inp (inp.i1 - 1)) / b2b_c inp := by
      apply div_pos _ hc
      simp only [b2b_xg]
      linarith
    rw [abs_lt]
    constructor <;> linarith
  have hnotQ : ∀ m ∈ List.range inp.i1,
      ¬ (decide (|(b2b_xg inp m - b2b_xg inp (inp.i1 - 1)) / b2b_c inp - 0.5| <
        0.5) = true) := by
    intro m hm
    simp only [decide_eq_true_eq]
    intro habs
    have hmlt := List.mem_range.mp hm
    have hle : inp.x.getD m 0 ≤ inp.x.getD (inp.i1 - 1) 0 :=
      sorted_getD_le hmono (by omega) (by omega)
    have hq : (b2b_xg inp m - b2b_xg inp (inp.i1 - 1)) / b2b_c inp ≤ 0 := by
      apply div_nonpos_iff.mpr
      refine Or.inr ⟨?_, hc.le⟩
      simp only [b2b_xg]
      linarith
    rcases abs_lt.mp habs with ⟨hl, _⟩
    linarith
  have hni : inp.i1 ≤ b2b_nx inp := by
    rw [b2b_nx]
    omega
  have hltn : inp.i1 < b2b_nx inp := by
    rw [b2b_nx]
    exact h1b
  have hr : List.range (b2b_nx inp) =
      List.range inp.i1 ++ (List.range (b2b_nx inp - inp.i1)).map (inp.i1 + ·) := by
    conv_lhs => rw [show b2b_nx inp = inp.i1 + (b2b_nx inp - inp.i1) from by omega]
    exact List.range_add _ _
  have hhead : (List.range (b2b_nx inp - inp.i1)).map (inp.i1 + ·) =
      inp.i1 :: ((List.range (b2b_nx inp - inp.i1 - 1)).map Nat.succ).map
        (inp.i1 + ·) := by
    conv_lhs => rw [show b2b_nx inp - inp.i1 = (b2b_nx inp - inp.i1 - 1) + 1
      from by omega, List.range_succ_eq_map]
    rw [List.map_cons, Nat.add_zero]
  have hdec : ∃ rest : List ℕ, b2b_icl_dn inp = inp.i1 :: rest := by
    rw [b2b_icl_dn, hr, List.filter_append, List.filter_eq_nil_iff.mpr hnotQ,
      List.nil_append, hhead, List.filter_cons, if_pos (decide_eq_true hQi1)]
    exact ⟨_, rfl⟩
  obtain ⟨rest, hdec⟩ := hdec
  have hmem : inp.i1 ∈ b2b_icl_dn inp := by
    rw [hdec]
    exact List.mem_cons_self _ _
  rw [b2b_lin_dn, if_pos hbr, if_pos hmem, hdec, List.indexOf_cons_self,
    List.length_cons, linspace_getD (Nat.succ_pos _)]
  norm_num

/-- Claim C6 (amended): the circumferential field is continuous across the
passage/duct boundary — the duct value at the station adjacent to the passage
equals the passage value at the corresponding edge index — provided the
relaxation weight really is 1 at those stations.  This requires `ii[0] ≥ 2`
(at `ii[0] = 1` the short upstream branch uses `np.linspace(0, 1, 1) = [0.0]`
and the weight is 0, not 1), `ii[1] ≤ len(x) - 2`, a positive chord, and —
whenever the duct on a side is longer than one chord — that the two grid
stations next to the corresponding edge lie within one chord of it, so that
the clipped relaxation window contains them. -/
theorem b2b_continuity (inp : B2BInput) (hmono : List.Chain' (· < ·) inp.x)
    (hc : 0 < b2b_c inp) (h0 : 2 ≤ inp.i0) (h01 : inp.i0 < inp.i1)
    (h1 : inp.i1 + 2 ≤ b2b_nx inp)
    (hup : (b2b_xg inp inp.i0 - b2b_xg inp 0) / b2b_c inp > 1 →
      b2b_xg inp inp.i0 - b2b_xg inp (inp.i0 - 2) < b2b_c inp)
    (hdn : (b2b_xg inp (b2b_nx inp - 1) - b2b_xg inp (inp.i1 - 1)) / b2b_c inp > 1 →
      b2b_xg inp inp.i1 - b2b_xg inp (inp.i1 - 1) < b2b_c inp) :
    ∀ j k, blade_to_blade_mesh inp (inp.i0 - 1) j k =
        blade_to_blade_mesh inp inp.i0 j k ∧
      blade_to_blade_mesh inp inp.i1 j k =
        blade_to_blade_mesh inp (inp.i1 - 1) j k := by
  intro j k
  have hnx : b2b_nx inp = inp.x.length := rfl
  have hwup : b2b_lin_up inp (inp.i0 - 1) = 1 := by
    by_cases hbr : (b2b_xg inp inp.i0 - b2b_xg inp 0) / b2b_c inp > 1
    · exact b2b_lin_up_edge_long inp hmono hc h0 (by omega) hbr (hup hbr)
    · rw [b2b_lin_up, if_neg hbr, linspace_getD (by omega)]
      have hcast : ((inp.i0 - 1 : ℕ) : ℝ) ≠ 0 := Nat.cast_ne_zero.mpr (by omega)
      rw [zero_add, sub_zero, one_mul]
      exact div_self hcast
  have hwdn : b2b_lin_dn inp inp.i1 = 1 := by
    by_cases hbr : (b2b_xg inp (b2b_nx inp - 1) - b2b_xg inp (inp.i1 - 1)) /
        b2b_c inp > 1
    · exact b2b_lin_dn_edge_long inp hmono hc (by omega) (by omega) hbr (hdn hbr)
    · rw [b2b_lin_dn, if_neg hbr, Nat.sub_self, linspace_getD (by omega)]
      norm_num
  constructor
  · have hlhs : blade_to_blade_mesh inp (inp.i0 - 1) j k =
        b2b_rtC inp inp.i0 j k := by
      simp only [blade_to_blade_mesh]
      rw [b2b_rtE, if_neg (by omega), b2b_rtD, if_pos (by omega), hwup]
      ring
    have hrhs : blade_to_blade_mesh inp inp.i0 j k =
        b2b_rtC inp inp.i0 j k := by
      simp only [blade_to_blade_mesh]
      rw [b2b_rtE, if_neg (by omega), b2b_rtD, if_neg (by omega)]
    rw [hlhs, hrhs]
  · have hlhs : blade_to_blade_mesh inp inp.i1 j k =
        b2b_rtA inp (inp.i1 - 1) j k := by
      simp only [blade_to_blade_mesh]
      have he : b2b_rtE inp inp.i1 j k = b2b_rtD inp inp.i1 j k := by
        rw [b2b_rtE, if_pos le_rfl, hwdn]
        ring
      rw [he, b2b_rtD, if_neg (by omega), b2b_rtC, if_neg (by omega),
        b2b_rtB, if_neg (by omega), if_pos le_rfl]
    have hrhs : blade_to_blade_mesh inp (inp.i1 - 1) j k =
        b2b_rtA inp (inp.i1 - 1) j k := by
      simp only [blade_to_blade_mesh]
      rw [b2b_rtE, if_neg (by omega), b2b_rtD, if_neg (by omega),
        b2b_rtC, if_neg (by omega), b2b_rtB, if_neg (by omega),
        if_neg (by omega)]
    rw [hlhs, hrhs]

lemma b2b_clust_eq (inp : B2BInput) : b2b_clust inp = _cluster inp.nrt := rfl

/-- The `cexInput` instance with a finer circumferential count `nrt = 5`,
where the cosine clustering differs from the uniform distribution at the
interior circumferential stations. -/
def cexInput6 : B2BInput where
  x := [0, 1, 3, 4, 5]
  r := fun _ _ => 1
  nspan := 1
  i0 := 1
  i1 := 3
  chi := fun _ => (0, 0)
  nj := 1
  nrt := 5
  s_c := 1
  a := 0
  bs := fun _ _ => ([0, 1], [0, 0], [0, 0])

/-- Counterexample to claim C6 as stated: for `x = [0, 1, 3, 4, 5]` with edge
indices `(1, 3)` (strictly inside the domain) and `nrt = 5`, the upstream duct
station adjacent to the passage is row 0.  There the relaxation weight is
`np.linspace(0, 1, 1)[0] = 0.0` — not 1 — so row 0 keeps the uniform
circumferential distribution written by the boundary step, while row `ii[0]`
carries the cosine-clustered passage distribution; at circumferential station
1 the two values are `1/2` and `(2 - √2)/2`, which differ. -/
theorem b2b_continuity_cex :
    0 < cexInput6.i0 ∧ cexInput6.i1 < b2b_nx cexInput6 - 1 ∧
    blade_to_blade_mesh cexInput6 (cexInput6.i0 - 1) 0 1 ≠
      blade_to_blade_mesh cexInput6 cexInput6.i0 0 1 := by
  have hxp : b2b_xpass cexInput6 = [0, 2] := by
    rw [b2b_xpass]
    norm_num [cexInput6, b2b_xg, List.getD_cons_zero, List.getD_cons_succ]
  have hcv : b2b_c cexInput6 = 2 := by
    rw [b2b_c, hxp, np_ptp, npmax, npmin]
    norm_num [List.foldr, max_def, min_def]
  have hrmid : b2b_rmid cexInput6 = 1 := by
    rw [b2b_rmid]
    norm_num [cexInput6]
  have hsect : b2b_sect cexInput6 0 = ([0, 2], [0, 0], [0, 0]) := by
    rw [b2b_sect, hcv]
    norm_num [cexInput6]
  have hrt0 : b2b_rt0 cexInput6 1 0 = 0 := by
    rw [b2b_rt0, hsect, hxp]
    norm_num [cexInput6, np_interp]
  have hrt1 : b2b_rt1 cexInput6 1 0 = 2 := by
    rw [b2b_rt1, hsect, hxp, hrmid, hcv]
    norm_num [cexInput6, np_interp]
  have hcl0 : (b2b_clust cexInput6).getD 0 0 = 0 := by
    rw [b2b_clust_eq, show cexInput6.nrt = 5 from rfl,
      _cluster_getD (by norm_num), clusterF_zero]
  have hcl4 : (b2b_clust cexInput6).getD 4 0 = 1 := by
    rw [b2b_clust_eq, show cexInput6.nrt = 5 from rfl,
      _cluster_getD (by norm_num)]
    exact clusterF_last (by norm_num)
  have hcl1 : (b2b_clust cexInput6).getD 1 0 = (2 - Real.sqrt 2) / 4 := by
    rw [b2b_clust_eq, show cexInput6.nrt = 5 from rfl,
      _cluster_getD (by norm_num), clusterF]
    have harg : Real.pi * ((1 : ℕ) : ℝ) / (((5 : ℕ) - 1 : ℕ) : ℝ) =
        Real.pi / 4 := by
      norm_num
    rw [harg, Real.cos_pi_div_four]
    ring
  have hunif1 : b2b_unif cexInput6 1 = 1 / 4 := by
    rw [b2b_unif, show cexInput6.nrt = 5 from rfl, linspace_getD (by norm_num)]
    norm_num
  have hcond : cexInput6.i0 ≤ 1 ∧ 1 < cexInput6.i1 ∧ 0 < cexInput6.nj := by
    norm_num [cexInput6]
  have hrtA : ∀ k, b2b_rtA cexInput6 1 0 k =
      2 * (b2b_clust cexInput6).getD k 0 := by
    intro k
    rw [b2b_rtA, if_pos hcond, hrt0, hrt1]
    ring
  have hv0 : blade_to_blade_mesh cexInput6 0 0 1 = 1 / 2 := by
    simp only [blade_to_blade_mesh]
    rw [b2b_rtE, if_neg (by norm_num [cexInput6]),
      b2b_rtD, if_pos (by norm_num [cexInput6]),
      b2b_lin_up_zero cexInput6 (by norm_num [cexInput6]), mul_zero, add_zero,
      b2b_rtC, if_pos (Or.inl rfl)]
    simp only [b2b_rtB]
    simp only [if_pos (show (0 : ℕ) < cexInput6.i0 by norm_num [cexInput6])]
    rw [show cexInput6.nrt - 1 = 4 from rfl, show cexInput6.i0 = 1 from rfl,
      hrtA 0, hrtA 4, hcl0, hcl4, hunif1]
    norm_num
  have hv1 : blade_to_blade_mesh cexInput6 1 0 1 = (2 - Real.sqrt 2) / 2 := by
    simp only [blade_to_blade_mesh]
    rw [b2b_rtE, if_neg (by norm_num [cexInput6]),
      b2b_rtD, if_neg (by norm_num [cexInput6]),
      b2b_rtC, if_neg (by norm_num [cexInput6, b2b_nx]),
      b2b_rtB, if_neg (by norm_num [cexInput6]),
      if_neg (by norm_num [cexInput6]), hrtA 1, hcl1]
    ring
  refine ⟨by norm_num [cexInput6], by norm_num [cexInput6, b2b_nx], ?_⟩
  rw [show cexInput6.i0 - 1 = 0 from rfl, show cexInput6.i0 = 1 from rfl,
    hv0, hv1]
  intro h
  have h2 : Real.sqrt 2 = 1 := by linarith
  have h3 := Real.sq_sqrt (by norm_num : (0 : ℝ) ≤ 2)
  rw [h2] at h3
  norm_num at h3

/-- A concrete instance for the amended C6: `x = [4/5, 9/10, 1, 3/2, 9/5, 3]`
with edge indices `(2, 4)`; the chord is `1/2`, the upstream duct is shorter
than one chord (short branch), and the downstream duct is longer than one
chord with the station next to the trailing edge within one chord of it. -/
def wInput6 : B2BInput where
  x := [4/5, 9/10, 1, 3/2, 9/5, 3]
  r := fun _ _ => 1
  nspan := 1
  i0 := 2
  i1 := 4
  chi := fun _ => (0, 0)
  nj := 1
  nrt := 2
  s_c := 1
  a := 0
  bs := fun _ _ => ([0, 1], [0, 0], [0, 0])

/-- Witness for the amended C6 at the concrete instance `wInput6`. -/
theorem b2b_continuity_witness :
    (List.Chain' (· < ·) wInput6.x ∧ 0 < b2b_c wInput6 ∧ 2 ≤ wInput6.i0 ∧
     wInput6.i0 < wInput6.i1 ∧ wInput6.i1 + 2 ≤ b2b_nx wInput6 ∧
     ((b2b_xg wInput6 wInput6.i0 - b2b_xg wInput6 0) / b2b_c wInput6 > 1 →
       b2b_xg wInput6 wInput6.i0 - b2b_xg wInput6 (wInput6.i0 - 2) <
         b2b_c wInput6) ∧
     ((b2b_xg wInput6 (b2b_nx wInput6 - 1) - b2b_xg wInput6 (wInput6.i1 - 1)) /
         b2b_c wInput6 > 1 →
       b2b_xg wInput6 wInput6.i1 - b2b_xg wInput6 (wInput6.i1 - 1) <
         b2b_c wInput6)) ∧
    (∀ j k, blade_to_blade_mesh wInput6 (wInput6.i0 - 1) j k =
        blade_to_blade_mesh wInput6 wInput6.i0 j k ∧
      blade_to_blade_mesh wInput6 wInput6.i1 j k =
        blade_to_blade_mesh wInput6 (wInput6.i1 - 1) j k) := by
  have hxp : b2b_xpass wInput6 = [0, 1/2] := by
    rw [b2b_xpass]
    norm_num [wInput6, b2b_xg, List.getD_cons_zero, List.getD_cons_succ]
  have hcw : b2b_c wInput6 = 1/2 := by
    rw [b2b_c, hxp, np_ptp, npmax, npmin]
    norm_num [List.foldr, max_def, min_def]
  have hmono : List.Chain' (· < ·) wInput6.x := by
    norm_num [wInput6, List.chain'_cons]
  have hcpos : 0 < b2b_c wInput6 := by
    rw [hcw]
    norm_num
  have hup : (b2b_xg wInput6 wInput6.i0 - b2b_xg wInput6 0) / b2b_c wInput6 > 1 →
      b2b_xg wInput6 wInput6.i0 - b2b_xg wInput6 (wInput6.i0 - 2) <
        b2b_c wInput6 := by
    intro h
    rw [hcw] at h
    norm_num [wInput6, b2b_xg, List.getD_cons_zero, List.getD_cons_succ] at h
  have hdn : (b2b_xg wInput6 (b2b_nx wInput6 - 1) -
        b2b_xg wInput6 (wInput6.i1 - 1)) / b2b_c wInput6 > 1 →
      b2b_xg wInput6 wInput6.i1 - b2b_xg wInput6 (wInput6.i1 - 1) <
        b2b_c wInput6 := by
    intro _
    rw [hcw]
    norm_num [wInput6, b2b_xg, List.getD_cons_zero, List.getD_cons_succ]
  exact ⟨⟨hmono, hcpos, by norm_num [wInput6], by norm_num [wInput6],
      by norm_num [wInput6, b2b_nx], hup, hdn⟩,
    b2b_continuity wInput6 hmono hcpos (by norm_num [wInput6])
      (by norm_num [wInput6]) (by norm_num [wInput6, b2b_nx]) hup hdn⟩
